import Mathlib

/-!
The runtime-synchronisation core of vscode-lua-debug.

A shallow embedding of `src/debugger/impl.cpp` (the `debugger_impl` member
functions `attach_lua`, `detach_lua`, `detach_all`, `update_main`,
`update_hook`, `panic`, `hook`, `exception`, `exception_nolock`,
`run_stopped`, `run_idle`, `output`, `open_redirect`, `close_redirect`, and
the static helpers `traceCall`, `hasFrame`, `get_mainthread`) and of
`src/debugger/io/socket.cpp` (`sock_server`, `sock_stream`).

Conventions of the embedding.

* A C++ pointer to a `lua_State` is a natural number (its address); a
  nullable pointer is an `Option`.  The Lua states live in a store
  `World.vm`.
* A `luathread*` is the key under which the thread sits in `luathreads_`.
* Classes of the repository whose bodies are not part of the sources at hand
  (`luathread`, the breakpoint and source managers, the request handlers, the
  network poller) appear as the fields of `Env`; they are arbitrary.
* `State.trace` is the history of calls made by the embedded functions.
* The build modelled is the one without `_WIN32`.
* `int`, `int64_t`: the counters `next_threadid_` and `seq` only ever grow by
  one from their initial value; they are embedded as unbounded integers.
-/

namespace vscode

/-! ## The Lua C API, as far as the adapter uses it -/

/-- C functions that can sit inside a C closure. -/
inductive CFunction where
  | redirect_print
  | other (n : Nat)
  deriving DecidableEq

/-- Lua values.  Functions are compared by identity (`lua_rawequal`), so a
function value is the address of its closure object. -/
inductive LuaValue where
  | nil
  | boolean (b : Bool)
  | lightuserdata (p : Nat)
  | integer (n : Int)
  | string (s : String)
  | function (addr : Nat)
  | object (addr : Nat)
  deriving DecidableEq

/-- Test `lua_type(..) == LUA_TFUNCTION`. -/
def LuaValue.isFunction : LuaValue → Bool
  | .function _ => true
  | _ => false

/-- Test `lua_type(..) == LUA_TSTRING`. -/
def LuaValue.isString : LuaValue → Bool
  | .string _ => true
  | _ => false

/-- A closure object: a C closure has a C function, a script function has none. -/
structure Closure where
  fn : Option CFunction
  upvalues : List LuaValue
  deriving DecidableEq

/-- One activation record (`CallInfo`) with what `lua_getinfo` reports of it. -/
structure CallInfo where
  func : Nat
  isC : Bool
  currentline : Int
  deriving DecidableEq

/-- A Lua thread.  `stack` has its top at the head (index `-1`), `ci` has
level 0 at the head, `closures` is the heap of closure objects (address =
position), `globals` is the global table (no metatable). -/
structure lua_State where
  mainthread : Nat
  stack : List LuaValue
  globals : String → LuaValue
  closures : List Closure
  ci : List CallInfo

def lua_gettop (L : lua_State) : Nat := L.stack.length

def lua_push (v : LuaValue) (L : lua_State) : lua_State :=
  { L with stack := v :: L.stack }

def lua_pushnil (L : lua_State) : lua_State := lua_push .nil L

def lua_pushinteger (n : Int) (L : lua_State) : lua_State := lua_push (.integer n) L

def lua_pushlightuserdata (p : Nat) (L : lua_State) : lua_State :=
  lua_push (.lightuserdata p) L

def lua_pop (n : Nat) (L : lua_State) : lua_State :=
  { L with stack := L.stack.drop n }

/-- Value at the negative index `-(i+1)`; `none` is `LUA_TNONE`. -/
def lua_index (L : lua_State) (i : Nat) : Option LuaValue := L.stack.get? i

/-- Pushes the global and yields it (the caller looks at its type). -/
def lua_getglobal (name : String) (L : lua_State) : LuaValue × lua_State :=
  (L.globals name, lua_push (L.globals name) L)

/-- Pops the top and stores it in the global. -/
def lua_setglobal (name : String) (L : lua_State) : lua_State :=
  { L with
    globals := Function.update L.globals name (L.stack.headD .nil)
    stack := L.stack.tail }

/-- Pops `n` values into a fresh C closure (the value pushed first becomes
upvalue 1) and pushes the closure. -/
def lua_pushcclosure (f : CFunction) (n : Nat) (L : lua_State) : lua_State :=
  { L with
    closures := L.closures ++ [{ fn := some f, upvalues := (L.stack.take n).reverse }]
    stack := .function L.closures.length :: L.stack.drop n }

/-- Call `lua_getupvalue(L, -1, n)`: pushes upvalue `n` of the function on top if
it has one and says so. -/
def lua_getupvalue_top (n : Nat) (L : lua_State) : Bool × lua_State :=
  match L.stack.head? with
  | some (.function a) =>
    match L.closures.get? a with
    | some c =>
      match n, c.upvalues.get? (n - 1) with
      | 0, _ => (false, L)
      | _ + 1, some v => (true, lua_push v L)
      | _ + 1, none => (false, L)
    | none => (false, L)
  | _ => (false, L)

/-- Call `lua_getstack(L, level, &ar)` for `level ≥ 0`. -/
def lua_getstack (L : lua_State) (level : Nat) : Option CallInfo := L.ci.get? level

/-- Body of `get_mainthread`: reads `LUA_RIDX_MAINTHREAD`; the push and pop cancel. -/
def get_mainthread (vm : Nat → lua_State) (thread : Nat) : Nat := (vm thread).mainthread

/-! ## Protocol records -/

/-- An inbound message (`rprotocol`), after schema validation. -/
structure rprotocol where
  type : String
  command : String
  seq : Int
  arguments : String
  deriving DecidableEq

/-- An outbound message (`wprotocol`). -/
inductive wprotocol where
  | output (seq : Int) (category : String) (text : Option String)
      (source : Option String) (line : Option Int)
  | stopped (seq : Int) (reason : String) (threadId : Int) (text : Option String)
  | error_response (seq : Int) (request_seq : Int) (command : String) (message : String)
  deriving DecidableEq

/-! ## The session -/

inductive eState where
  | birth | initialized | running | stepping | terminated
  deriving DecidableEq

inductive eException where
  | lua_panic | lua_pcall | xpcall | pcall
  deriving DecidableEq

inductive eCoding where
  | none | ansi | utf8
  deriving DecidableEq

inductive eRedirect where
  | stdoutput | stderror | print
  deriving DecidableEq

inductive eCall where
  | none | pcall | xpcall
  deriving DecidableEq

/-- Events of the VM hook (`debug.event()`). -/
inductive HookEvent where
  | call | ret | line | count | tailcall | exception
  deriving DecidableEq

/-- The cursor handed to the hook (`debug`): the Lua thread, the event, if it
comes from the VM hook, and the current line. -/
structure debug where
  L : Nat
  event : Option HookEvent
  currentline : Int
  deriving DecidableEq

inductive StepMode where
  | stepIn | stepOver | stepOut
  deriving DecidableEq

/-- Modelled from the spec: the class `luathread` (its header is missing):
"integer id, a handle identifying the underlying VM thread, an enabled flag, a
busy flag, the current top-of-stack function handle, a has_breakpoint hint and
a stepping descriptor (mode, frame-depth reference, original line)". -/
structure luathread where
  id : Int
  L : Nat
  enabled : Bool
  busy : Bool
  cur_function : Option Nat
  has_breakpoint : Bool
  step_mode : StepMode
  step_depth : Int
  step_line : Int
  deriving DecidableEq

/-- Modelled from the spec: the constructor `luathread(id, dbg, L)`: a thread
starts enabled, not busy, with no current function. -/
def luathread.new (id : Int) (L : Nat) : luathread :=
  { id := id, L := L, enabled := true, busy := false, cur_function := none,
    has_breakpoint := false, step_mode := .stepIn, step_depth := 0, step_line := 0 }

/-- Modelled from the spec: `luathread::disable_thread` clears the enabled flag. -/
def luathread.disable_thread (t : luathread) : luathread := { t with enabled := false }

/-- Modelled from the spec: `luathread::enable_thread` sets the enabled flag
("re-attaching an already-known thread simply re-enables it"). -/
def luathread.enable_thread (t : luathread) : luathread := { t with enabled := true }

/-- The fields of `debugger_impl` (constructor initialiser list). -/
structure debugger_impl where
  self_addr : Nat
  seq : Int
  state_ : eState
  exception_ : List eException
  luathreads_ : List (Int × luathread)
  consoleSourceCoding_ : eCoding
  consoleTargetCoding_ : eCoding
  sourceCoding_ : eCoding
  nodebug_ : Bool
  next_threadid_ : Int
  stopReason_ : String
  redirectL_ : Option Nat
  attach_ : Bool
  managers : Nat

/-- The constructor `debugger_impl::debugger_impl`. -/
def debugger_impl.new (self_addr managers : Nat) : debugger_impl :=
  { self_addr := self_addr, seq := 1, state_ := .birth, exception_ := [],
    luathreads_ := [], consoleSourceCoding_ := .none, consoleTargetCoding_ := .utf8,
    sourceCoding_ := .ansi, nodebug_ := false, next_threadid_ := 0,
    stopReason_ := "step", redirectL_ := none, attach_ := true, managers := managers }

def debugger_impl.is_state (d : debugger_impl) (s : eState) : Bool := d.state_ == s

/-- Everything a member function can reach: the object, the Lua states and
the messages written to the network so far (`io_output`). -/
structure World where
  dbg : debugger_impl
  vm : Nat → lua_State
  sent : List wprotocol

/-! ## `std::map<int, std::unique_ptr<luathread>>` -/

/-- Lookup `luathreads_.find(key)`. -/
def map_find (m : List (Int × luathread)) (key : Int) : Option luathread :=
  match m with
  | [] => none
  | (k, t) :: rest => if k = key then some t else map_find rest key

/-- Ordered, non-overwriting `luathreads_.insert`. -/
def map_insert (m : List (Int × luathread)) (key : Int) (t : luathread) :
    List (Int × luathread) :=
  match m with
  | [] => [(key, t)]
  | (k, v) :: rest =>
    if key < k then (key, t) :: (k, v) :: rest
    else if k = key then (k, v) :: rest
    else (k, v) :: map_insert rest key t

/-- Erasure `luathreads_.erase(key)`. -/
def map_erase (m : List (Int × luathread)) (key : Int) : List (Int × luathread) :=
  m.filter (fun e => e.1 ≠ key)

/-- Write through a `luathread*`: the object stored under `key` is replaced. -/
def map_modify (m : List (Int × luathread)) (key : Int) (f : luathread → luathread) :
    List (Int × luathread) :=
  m.map (fun e => if e.1 = key then (e.1, f e.2) else e)

/-! ## Thread registry: `find_luathread`, `attach_lua`, `detach_lua`, `detach_all` -/

/-- Overload `find_luathread(lua_State* L)`: the key and the object of the first
entry, in key order, whose handle is the main thread of `L`. -/
def find_luathread (w : World) (L : Nat) : Option (Int × luathread) :=
  w.dbg.luathreads_.find? (fun e => e.2.L = get_mainthread w.vm L)

/-- Overload `find_luathread(int threadid)`. -/
def find_luathread_id (w : World) (threadid : Int) : Option luathread :=
  map_find w.dbg.luathreads_ threadid

def World.modify_thread (w : World) (key : Int) (f : luathread → luathread) : World :=
  { w with dbg := { w.dbg with luathreads_ := map_modify w.dbg.luathreads_ key f } }

/-! ## Collaborators -/

/-- The member functions bound in `main_dispatch_`. -/
inductive MainRequest where
  | request_launch | request_attach | request_configuration_done | request_terminate
  | request_disconnect | request_set_breakpoints | request_set_exception_breakpoints
  | request_pause
  deriving DecidableEq

/-- The member functions bound in `hook_dispatch_`. -/
inductive HookRequest where
  | request_continue | request_next | request_stepin | request_stepout
  | request_stack_trace | request_scopes | request_variables | request_set_variable
  | request_source | request_threads | request_evaluate | request_exception_info
  | request_loaded_sources
  deriving DecidableEq

/-- The table `main_dispatch_` of the constructor. -/
def main_dispatch_ : List (String × MainRequest) :=
  [("launch", .request_launch), ("attach", .request_attach),
   ("configurationDone", .request_configuration_done),
   ("terminate", .request_terminate), ("disconnect", .request_disconnect),
   ("setBreakpoints", .request_set_breakpoints),
   ("setExceptionBreakpoints", .request_set_exception_breakpoints),
   ("pause", .request_pause)]

/-- The table `hook_dispatch_` of the constructor. -/
def hook_dispatch_ : List (String × HookRequest) :=
  [("continue", .request_continue), ("next", .request_next),
   ("stepIn", .request_stepin), ("stepOut", .request_stepout),
   ("stackTrace", .request_stack_trace), ("scopes", .request_scopes),
   ("variables", .request_variables), ("setVariable", .request_set_variable),
   ("source", .request_source), ("threads", .request_threads),
   ("evaluate", .request_evaluate), ("exceptionInfo", .request_exception_info),
   ("loadedSources", .request_loaded_sources)]

/-- Lookup `table.find(command)`. -/
def dispatch_find {α : Type} (table : List (String × α)) (command : String) : Option α :=
  match table with
  | [] => none
  | (k, h) :: rest => if k = command then some h else dispatch_find rest command

/-- The parts of the repository that the embedded functions call and whose
bodies are not in the sources at hand.  `request_init` stands for
`request_initialize`, `network_update` for `network_->update(0)` together with
the callbacks it fires, `enable_thread_result` for the value returned by
`luathread::enable_thread`, `breakpoint_has` for `breakpointmgr_.has`,
`source_create` for `sourcemgr_.create` (validity and rendered source). -/
structure Env where
  network_update : World → World
  request_init : rprotocol → World → World
  request_main : MainRequest → rprotocol → World → Bool × World
  request_hook : HookRequest → rprotocol → debug → World → Bool × World
  enable_thread_result : luathread → Bool
  release_thread : luathread → luathread
  hook_callret : debug → World → luathread → luathread
  hook_line : debug → World → luathread → luathread
  check_step : Nat → World → luathread → Bool
  breakpoint_has : Nat → Int → debug → World → Bool
  reset_session : Nat → World → luathread → luathread
  a2u : String → String
  u2a : String → String
  source_create : CallInfo → World → Option (Bool × String)

/-- One entry of the call history. -/
inductive Call where
  | run_stopped (thread : Int) (reason : String) (description : Option String)
  | request_init (req : rprotocol)
  | request_main (h : MainRequest) (req : rprotocol)
  | request_hook (h : HookRequest) (req : rprotocol)
  | response_error (req : rprotocol) (msg : String)
  | reset_session (thread : Int)
  | sleep
  | hook_callret (thread : Int)
  | hook_line (thread : Int)
  | check_step (thread : Int)
  | breakpoint_has (thread : Int) (line : Int)
  deriving DecidableEq

/-- The world, the inbound messages that successive `io_input()` calls will
return (`none`: nothing available at that call; an exhausted list: nothing
ever again), the call history, and whether control is caught for ever in the
stopped loop. -/
structure State where
  w : World
  inbox : List (Option rprotocol)
  trace : List Call
  hung : Bool

/-- Sequencing: what follows a call that never returns does not happen. -/
def State.andThen (s : State) (f : State → State) : State :=
  if s.hung then s else f s

def State.log (s : State) (c : Call) : State := { s with trace := s.trace ++ [c] }

def State.modify_thread (s : State) (key : Int) (f : luathread → luathread) : State :=
  { s with w := s.w.modify_thread key f }

def World.modify_vm (w : World) (L : Nat) (f : lua_State → lua_State) : World :=
  { w with vm := Function.update w.vm L (f (w.vm L)) }

def State.modify_vm (s : State) (L : Nat) (f : lua_State → lua_State) : State :=
  { s with w := s.w.modify_vm L f }

/-- The call `io_input()`. -/
def io_input (s : State) : Option rprotocol × State :=
  match s.inbox with
  | [] => (none, s)
  | x :: rest => (x, { s with inbox := rest })

/-- The call `io_output(wp)`. -/
def io_output (wp : wprotocol) (w : World) : World := { w with sent := w.sent ++ [wp] }

/-- Modelled from the spec: `response_error` (body missing) builds the error
response, with `seq` taken from the session counter, and writes it out. -/
def response_error (req : rprotocol) (msg : String) (s : State) : State :=
  { s with
    w := io_output (.error_response s.w.dbg.seq req.seq req.command msg)
          { s.w with dbg := { s.w.dbg with seq := s.w.dbg.seq + 1 } }
    trace := s.trace ++ [.response_error req msg] }

/-- Modelled from the spec: `event_stopped` (body missing) emits the `stopped`
event with reason, thread id and optional text. -/
def event_stopped (thread : Int) (reason : String) (description : Option String)
    (w : World) : World :=
  io_output
    (.stopped w.dbg.seq reason (((find_luathread_id w thread).map (·.id)).getD thread)
      description)
    { w with dbg := { w.dbg with seq := w.dbg.seq + 1 } }

/-- Modelled from the spec: `set_state(eState::birth)` (body missing). -/
def set_state (st : eState) (w : World) : World :=
  { w with dbg := { w.dbg with state_ := st } }

/-! ## Registry operations -/

def attach_lua (env : Env) (L : Nat) (w : World) : Bool × World :=
  if w.dbg.nodebug_ then (false, w)
  else
    match find_luathread w L with
    | some (key, thread) =>
      (!env.enable_thread_result thread, w.modify_thread key luathread.enable_thread)
    | none =>
      let new_threadid := w.dbg.next_threadid_ + 1
      let newthread := luathread.new new_threadid (get_mainthread w.vm L)
      (true, { w with dbg := { w.dbg with
                next_threadid_ := new_threadid
                luathreads_ := map_insert w.dbg.luathreads_ new_threadid newthread } })

def detach_lua (L : Nat) (remove : Bool) (w : World) : World :=
  match find_luathread w L with
  | some (key, thread) =>
    if remove then
      { w with dbg := { w.dbg with luathreads_ := map_erase w.dbg.luathreads_ thread.id } }
    else w.modify_thread key luathread.disable_thread
  | none => w

def detach_all (env : Env) (release : Bool) (w : World) : World :=
  if release then
    let threads := w.dbg.luathreads_.map
      (fun e => (e.1, (env.release_thread e.2).disable_thread))
    { w with dbg := { { w.dbg with luathreads_ := threads } with luathreads_ := [] } }
  else
    { w with dbg := { w.dbg with
        luathreads_ := w.dbg.luathreads_.map (fun e => (e.1, e.2.disable_thread)) } }

/-! ## Dispatch -/

/-- Member `update_main(req, quit)`: found?, the new `quit`, the new state. -/
def update_main (env : Env) (req : rprotocol) (quit : Bool) (s : State) :
    Bool × Bool × State :=
  match dispatch_find main_dispatch_ req.command with
  | some h =>
    let r := env.request_main h req s.w
    (true, r.1, { s with w := r.2, trace := s.trace ++ [.request_main h req] })
  | none => (false, quit, s)

/-- Member `update_hook(req, debug, quit)`. -/
def update_hook (env : Env) (req : rprotocol) (d : debug) (quit : Bool) (s : State) :
    Bool × Bool × State :=
  match dispatch_find hook_dispatch_ req.command with
  | some h =>
    let r := env.request_hook h req d s.w
    (true, r.1, { s with w := r.2, trace := s.trace ++ [.request_hook h req] })
  | none => (false, quit, s)

/-- Formatted text `base::format(fmt, command)` for the three error texts. -/
def not_yet_implemented (command : String) (tail : String) : String :=
  "`" ++ command ++ "` not yet implemented" ++ tail

/-- The `while (!quit)` loop of `run_stopped`, by recursion on the inputs that
`io_input()` is still going to return. -/
def stopped_loop (env : Env) (d : debug) : List (Option rprotocol) → State → State
  | [], s => { s with hung := true }
  | input :: rest, s =>
    let s1 : State := { s with w := env.network_update s.w, inbox := rest }
    match input with
    | none => stopped_loop env d rest (s1.log .sleep)
    | some req =>
      if req.type ≠ "request" then stopped_loop env d rest s1
      else if s1.w.dbg.is_state .birth then
        if req.command = "initialize" then
          stopped_loop env d rest
            { s1 with w := env.request_init req s1.w, trace := s1.trace ++ [.request_init req] }
        else
          stopped_loop env d rest
            (response_error req (not_yet_implemented req.command ",(stopped)") s1)
      else
        match update_main env req false s1 with
        | (true, quit, s2) => if quit then s2 else stopped_loop env d rest s2
        | (false, _, s2) =>
          match update_hook env req d false s2 with
          | (true, quit, s3) => if quit then s3 else stopped_loop env d rest s3
          | (false, _, s3) =>
            stopped_loop env d rest
              (response_error req (not_yet_implemented req.command ",(stopped)") s3)

/-- Member `run_stopped(thread, debug, reason, description)`. -/
def run_stopped (env : Env) (thread : Int) (d : debug) (reason : String)
    (description : Option String) (s : State) : State :=
  let s0 : State := { s with
    w := event_stopped thread reason description s.w
    trace := s.trace ++ [.run_stopped thread reason description] }
  (stopped_loop env d s0.inbox s0).andThen fun s1 =>
    (s1.modify_thread thread (env.reset_session d.L s1.w)).log (.reset_session thread)

/-- Member `run_idle()`. -/
def run_idle (env : Env) (s : State) : State :=
  let s0 : State := { s with w := env.network_update s.w }
  if s0.w.dbg.is_state .birth then
    match io_input s0 with
    | (none, s1) => s1
    | (some req, s1) =>
      if req.type ≠ "request" then s1
      else if req.command = "initialize" then
        { s1 with w := env.request_init req s1.w, trace := s1.trace ++ [.request_init req] }
      else response_error req (not_yet_implemented req.command ".(birth)") s1
  else if s0.w.dbg.is_state .initialized || s0.w.dbg.is_state .running
      || s0.w.dbg.is_state .stepping then
    match io_input s0 with
    | (none, s1) => s1
    | (some req, s1) =>
      if req.type ≠ "request" then s1
      else
        match update_main env req false s1 with
        | (true, _, s2) => s2
        | (false, _, s2) => response_error req (not_yet_implemented req.command ".(idle)") s2
  else if s0.w.dbg.is_state .terminated then { s0 with w := set_state .birth s0.w }
  else s0

/-! ## Error classification and the hook -/

/-- Call `lua_rawequal(L, -(i+1), -(j+1))`. -/
def lua_rawequal (L : lua_State) (i j : Nat) : Bool :=
  match lua_index L i, lua_index L j with
  | some a, some b => a = b
  | _, _ => false

/-- The `while (lua_getstack(L, level++, &ar))` loop of `traceCall`, by
recursion on the activation records from `level` outwards.  `lua_getinfo(L,
"f", &ar)` pushes the function of the record and succeeds. -/
def traceCall_loop : List CallInfo → lua_State → eCall × lua_State
  | [], L => (.none, lua_pop 2 L)
  | ar :: rest, L =>
    let L1 := lua_push (.function ar.func) L
    if lua_rawequal L1 2 0 then (.pcall, lua_pop 3 L1)
    else if lua_rawequal L1 1 0 then (.xpcall, lua_pop 3 L1)
    else traceCall_loop rest (lua_pop 1 L1)

def traceCall (L : lua_State) (level : Nat) : eCall × lua_State :=
  let g1 := lua_getglobal "pcall" L
  let L1 := if g1.1.isFunction then g1.2 else lua_pushnil (lua_pop 1 g1.2)
  let g2 := lua_getglobal "xpcall" L1
  let L2 := if g2.1.isFunction then g2.2 else lua_pushnil (lua_pop 1 g2.2)
  traceCall_loop (L2.ci.drop level) L2

/-- The loop of `hasFrame`, over the activation records from depth 0. -/
def hasFrame_loop : List CallInfo → Bool
  | [] => false
  | entry :: rest => if !entry.isC then true else hasFrame_loop rest

def hasFrame (L : lua_State) : Bool := hasFrame_loop L.ci

/-- Member `exception_nolock(thread, L, exceptionType, level)`. -/
def exception_nolock (env : Env) (thread : Int) (L : Nat) (exceptionType : eException)
    (level : Int) (s : State) : State :=
  if exceptionType ∉ s.w.dbg.exception_ then s
  else
    match lua_getstack (s.w.vm L) 0 with
    | none => s
    | some ar =>
      let s1 := s.modify_vm L (lua_pushinteger level)
      let d : debug := { L := L, event := none, currentline := ar.currentline }
      let s2 :=
        match !hasFrame (s1.w.vm L), lua_index (s1.w.vm L) 1 with
        | true, some (.string text) => run_stopped env thread d "exception" (some text) s1
        | _, _ => run_stopped env thread d "exception" none s1
      s2.andThen fun s3 => s3.modify_vm L (lua_pop 1)

/-- Member `panic(thread, L)`; the hook state of `disable_hook` is not part of
the embedding. -/
def panic (env : Env) (thread : Int) (L : Nat) (s : State) : State :=
  exception_nolock env thread L .lua_panic 0 s

/-- The second branch of the line decision of `hook`. -/
def hook_step (env : Env) (thread : Int) (t : luathread) (d : debug) (s : State) : State :=
  if s.w.dbg.is_state .stepping then
    let s1 := s.log (.check_step thread)
    if env.check_step d.L s.w t then run_stopped env thread d s.w.dbg.stopReason_ none s1
    else s1
  else s

/-- Member `hook(thread, debug)` between the constructor and the destructor
of `busy_guard`. -/
def hook_body (env : Env) (thread : Int) (d : debug) (s : State) : State :=
  if s.w.dbg.is_state .terminated || s.w.dbg.is_state .birth
      || s.w.dbg.is_state .initialized then s
  else if d.event = some .call ∨ d.event = some .tailcall ∨ d.event = some .ret then
    (s.modify_thread thread (env.hook_callret d s.w)).log (.hook_callret thread)
  else if d.event = some .exception then
    let r := traceCall (s.w.vm d.L) 0
    let s1 : State := { s with w := { s.w with vm := Function.update s.w.vm d.L r.2 } }
    match r.1 with
    | .pcall => exception_nolock env thread d.L .pcall 0 s1
    | .xpcall => exception_nolock env thread d.L .xpcall 0 s1
    | .none => exception_nolock env thread d.L .lua_pcall 0 s1
  else if d.event ≠ some .line then s
  else
    let s1 := (s.modify_thread thread (env.hook_line d s.w)).log (.hook_line thread)
    match find_luathread_id s1.w thread with
    | none => s1
    | some t =>
      match t.cur_function with
      | none => s1
      | some f =>
        if 0 < d.currentline ∧ t.has_breakpoint = true then
          let s2 := s1.log (.breakpoint_has thread d.currentline)
          if env.breakpoint_has f d.currentline d s1.w then
            run_stopped env thread d "breakpoint" none s2
          else hook_step env thread t d s2
        else hook_step env thread t d s1

/-- Member `hook(thread, debug)`. -/
def hook (env : Env) (thread : Int) (d : debug) (s : State) : State :=
  (hook_body env thread d (s.modify_thread thread fun t => { t with busy := true })).andThen
    fun s1 => s1.modify_thread thread fun t => { t with busy := false }

/-- Member `exception(L, exceptionType, level)` for a non-null `L`. -/
def exception_at (env : Env) (L : Nat) (exceptionType : eException) (level : Int)
    (s : State) : Bool × State :=
  match find_luathread s.w L with
  | some (thread, _) => (true, exception_nolock env thread L exceptionType level s)
  | none => (false, s)

/-- Member `exception(L, exceptionType, level)`; with a null `L` it turns to
the first busy thread (whose handle is never null). -/
def exception (env : Env) (L : Option Nat) (exceptionType : eException) (level : Int)
    (s : State) : Bool × State :=
  match L with
  | none =>
    match s.w.dbg.luathreads_.find? (fun lt => lt.2.busy) with
    | some lt => exception_at env lt.2.L exceptionType level s
    | none => (false, s)
  | some L => exception_at env L exceptionType level s

/-! ## Output and redirection -/

/-- Member `output(category, buf, len, L, ar)`. -/
def output (env : Env) (category : String) (buf : String) (L : Option Nat)
    (ar : Option CallInfo) (w : World) : World :=
  if w.dbg.is_state .terminated || w.dbg.is_state .birth || w.dbg.is_state .initialized then w
  else if w.dbg.consoleSourceCoding_ = .none then w
  else
    let seq := w.dbg.seq
    let w1 : World := { w with dbg := { w.dbg with seq := w.dbg.seq + 1 } }
    let text : Option String :=
      if w.dbg.consoleTargetCoding_ = w.dbg.consoleSourceCoding_ then some buf
      else if w.dbg.consoleSourceCoding_ = .ansi then some (env.a2u buf)
      else if w.dbg.consoleSourceCoding_ = .utf8 then some (env.u2a buf)
      else none
    let where_ : Option (String × Int) :=
      match L with
      | none => none
      | some L =>
        let ar1 := match ar with
          | some a => some a
          | none => lua_getstack (w.vm L) 1
        match ar1 with
        | none => none
        | some a =>
          if a.isC then none
          else
            match env.source_create a w1 with
            | some (true, src) => some (src, a.currentline)
            | _ => none
    io_output (.output seq category text (where_.map (·.1)) (where_.map (·.2))) w1

/-- Member `open_redirect(type, L)`. -/
def open_redirect (type : eRedirect) (L : Option Nat) (w : World) : World :=
  match type, L with
  | .print, some L =>
    let w1 := w.modify_vm L fun vm =>
      lua_setglobal "print"
        (lua_pushcclosure .redirect_print 2
          (lua_getglobal "print" (lua_pushlightuserdata w.dbg.self_addr vm)).2)
    { w1 with dbg := { w1.dbg with redirectL_ := some L } }
  | _, _ => w

/-- Member `close_redirect()`. -/
def close_redirect (w : World) : World :=
  match w.dbg.redirectL_ with
  | some L =>
    let w1 : World := { w with dbg := { w.dbg with redirectL_ := none } }
    w1.modify_vm L fun vm =>
      let g := lua_getglobal "print" vm
      let vm2 :=
        if g.1.isFunction then
          let u := lua_getupvalue_top 2 g.2
          if u.1 then lua_setglobal "print" u.2 else u.2
        else g.2
      lua_pop 1 vm2
  | none => w

/-! ## The server transport (`socket.cpp`) -/

/-- A `sock_session` object: its address, the connection it was attached to,
whether `close()` was called on it, and whether its socket is `retired_fd`. -/
structure sock_session where
  addr : Nat
  fd : Nat
  ep : String
  closed : Bool
  retired : Bool
  deriving DecidableEq

/-- A `sock_server` with the `sock_stream` it serves: `session_`,
`clearlist_`, the pointer `stream_.s`, the fds handed to
`net::socket::close`, and the next free object address. -/
structure sock_server where
  session_ : Option sock_session
  clearlist_ : List sock_session
  stream_s : Option Nat
  closed_fds : List Nat
  next_addr : Nat
  deriving DecidableEq

/-- Constructors `sock_stream::sock_stream` and `sock_server::sock_server`. -/
def sock_server.new : sock_server :=
  { session_ := none, clearlist_ := [], stream_s := none, closed_fds := [], next_addr := 0 }

/-- Member `sock_server::event_accept(fd, ep)`. -/
def event_accept (fd : Nat) (ep : String) (sv : sock_server) : sock_server :=
  match sv.session_ with
  | some _ => { sv with closed_fds := sv.closed_fds ++ [fd] }
  | none =>
    { sv with
      session_ := some { addr := sv.next_addr, fd := fd, ep := ep, closed := false,
                         retired := false }
      stream_s := some sv.next_addr
      next_addr := sv.next_addr + 1 }

/-- Member `sock_server::close_session()`. -/
def close_session (sv : sock_server) : sock_server :=
  match sv.session_ with
  | none => sv
  | some s =>
    { sv with session_ := none, clearlist_ := sv.clearlist_ ++ [{ s with closed := true }] }

/-- Member `sock_server::event_close()`: the session object is destroyed. -/
def sock_server.event_close (sv : sock_server) : sock_server := { sv with session_ := none }

/-- Member `sock_server::update()`: retired sessions leave `clearlist_`. -/
def sock_server.update (sv : sock_server) : sock_server :=
  { sv with clearlist_ := sv.clearlist_.filter (fun s => !s.retired) }

/-- Member `socket_s::close()`: `sock_stream::close()` then `close_session()`. -/
def socket_s_close (sv : sock_server) : sock_server :=
  close_session { sv with stream_s := none }

/-! ## Runs used to state the properties -/

/-- A freshly constructed session next to some Lua states. -/
def World.fresh (self_addr managers : Nat) (vm : Nat → lua_State) : World :=
  { dbg := debugger_impl.new self_addr managers, vm := vm, sent := [] }

/-- A call on the thread registry. -/
inductive RegistryOp where
  | attach (L : Nat)
  | detach (L : Nat) (remove : Bool)
  | detach_all (release : Bool)
  deriving DecidableEq

def RegistryOp.apply (env : Env) : RegistryOp → World → World
  | .attach L, w => (attach_lua env L w).2
  | .detach L remove, w => detach_lua L remove w
  | .detach_all release, w => vscode.detach_all env release w

def run_registry (env : Env) : List RegistryOp → World → World
  | [], w => w
  | op :: rest, w => run_registry env rest (op.apply env w)

/-- The ids handed out during a run, in order: for every `attach_lua` that
finds its thread unregistered, the id of the thread found registered for it
right after the call. -/
def assigned_ids (env : Env) : List RegistryOp → World → List Int
  | [], _ => []
  | .attach L :: rest, w =>
    (match find_luathread w L with
      | some _ => []
      | none => ((find_luathread (attach_lua env L w).2 L).map (fun e => e.2.id)).toList)
      ++ assigned_ids env rest (attach_lua env L w).2
  | op :: rest, w => assigned_ids env rest (op.apply env w)

/-- Well-formedness of the registry. -/
structure registry_ok (w : World) : Prop where
  nodebug : w.dbg.nodebug_ = false
  counter : 0 ≤ w.dbg.next_threadid_
  key_id : ∀ e ∈ w.dbg.luathreads_, e.1 = e.2.id
  key_bound : ∀ e ∈ w.dbg.luathreads_, 1 ≤ e.1 ∧ e.1 ≤ w.dbg.next_threadid_
  handles : (w.dbg.luathreads_.map (fun e => e.2.L)).Nodup

/-- Whether a history entry is an entry into `run_stopped`. -/
def Call.is_stop : Call → Bool
  | .run_stopped _ _ _ => true
  | _ => false

/-- The entries into `run_stopped` of a history, in order. -/
def stops (tr : List Call) : List Call := tr.filter Call.is_stop

/-- The exception kind `hook` raises for a result of `traceCall`. -/
def exception_kind : eCall → eException
  | .pcall => .pcall
  | .xpcall => .xpcall
  | .none => .lua_pcall

/-- The description of an exception stop: the error text on top of the stack
when no script frame is active. -/
def exception_text (L : lua_State) : Option String :=
  match !hasFrame L, L.stack.head? with
  | true, some (.string text) => some text
  | _, _ => none

/-- Stop decision of an exception report, in the words of the corrected
rule: a stop with reason "exception" when the kind is enabled and the VM has
an activation record at level 0, nothing otherwise. -/
def exception_stop (w : World) (thread : Int) (L : Nat) (kind : eException) : List Call :=
  if kind ∈ w.dbg.exception_ ∧ (w.vm L).ci ≠ [] then
    [.run_stopped thread "exception" (exception_text (w.vm L))]
  else []

/-- The world in which the line decision is taken: the busy flag is set and
`hook_line` has run on the thread. -/
def line_world (env : Env) (thread : Int) (d : debug) (w : World) : World :=
  (w.modify_thread thread fun t => { t with busy := true }).modify_thread thread
    (env.hook_line d (w.modify_thread thread fun t => { t with busy := true }))

/-- Stop decision of a line event, in the words of the rule: breakpoint
first, then step, else nothing; nothing at all without a current function. -/
def line_stop (env : Env) (thread : Int) (d : debug) (w : World) : List Call :=
  let w1 := line_world env thread d w
  match find_luathread_id w1 thread with
  | none => []
  | some t =>
    match t.cur_function with
    | none => []
    | some f =>
      if 0 < d.currentline ∧ t.has_breakpoint = true
          ∧ env.breakpoint_has f d.currentline d w1 = true then
        [.run_stopped thread "breakpoint" none]
      else if w.dbg.state_ = .stepping ∧ env.check_step d.L w1 t = true then
        [.run_stopped thread w.dbg.stopReason_ none]
      else []

/-- Stop decision of `hook` for any event. -/
def hook_stop (env : Env) (thread : Int) (d : debug) (w : World) : List Call :=
  if w.dbg.state_ = .terminated ∨ w.dbg.state_ = .birth ∨ w.dbg.state_ = .initialized then []
  else
    match d.event with
    | some .exception =>
      exception_stop w thread d.L (exception_kind (traceCall (w.vm d.L) 0).1)
    | some .line => line_stop env thread d w
    | _ => []

/-- The names of the session states, as the spec writes them. -/
def eState.name : eState → String
  | .birth => "birth"
  | .initialized => "initialized"
  | .running => "running"
  | .stepping => "stepping"
  | .terminated => "terminated"

/-- The text `msg` contains the text `sub`. -/
def mentions (msg sub : String) : Prop := sub.data <:+: msg.data

/-- What can happen to a session between and including `output` calls: the
state and the console codings change (handlers do that), `output` is called. -/
inductive OutputOp where
  | set_state (st : eState)
  | set_coding (source target : eCoding)
  | output (category buf : String) (L : Option Nat) (ar : Option CallInfo)

def OutputOp.apply (env : Env) : OutputOp → World → World
  | .set_state st, w => { w with dbg := { w.dbg with state_ := st } }
  | .set_coding source target, w =>
    { w with dbg := { w.dbg with consoleSourceCoding_ := source,
                                 consoleTargetCoding_ := target } }
  | .output category buf L ar, w => vscode.output env category buf L ar w

def run_output (env : Env) : List OutputOp → World → World
  | [], w => w
  | op :: rest, w => run_output env rest (op.apply env w)

/-- The `seq` of an outbound message. -/
def wprotocol.seq_of : wprotocol → Int
  | .output seq _ _ _ _ => seq
  | .stopped seq _ _ _ => seq
  | .error_response seq _ _ _ => seq

/-- Whether an outbound message is an `output` event. -/
def wprotocol.is_output : wprotocol → Bool
  | .output _ _ _ _ _ => true
  | _ => false

/-- What can happen to the server transport: a connection is accepted, the
session closes (its close callback, or `close_session` called from outside),
`socket_s::close()`, the listener closes, the update tick, and the poller
retiring the socket of a closed session of `clearlist_`. -/
inductive SockEvent where
  | accept (fd : Nat) (ep : String)
  | close_session
  | socket_close
  | listener_close
  | update
  | retire (i : Nat)
  deriving DecidableEq

def SockEvent.apply : SockEvent → sock_server → sock_server
  | .accept fd ep, sv => event_accept fd ep sv
  | .close_session, sv => vscode.close_session sv
  | .socket_close, sv => socket_s_close sv
  | .listener_close, sv => sv.event_close
  | .update, sv => sv.update
  | .retire i, sv =>
    { sv with clearlist_ := sv.clearlist_.modify (fun s => { s with retired := true }) i }

def run_sock : List SockEvent → sock_server → sock_server
  | [], sv => sv
  | e :: rest, sv => run_sock rest (e.apply sv)

/-- The session objects the server owns. -/
def sock_server.owned (sv : sock_server) : List sock_session :=
  sv.session_.toList ++ sv.clearlist_

/-- Well-formedness of the server: the stream is bound to the active session,
which is open; the sessions of `clearlist_` are closed. -/
structure sock_ok (sv : sock_server) : Prop where
  bound : ∀ s, sv.session_ = some s → sv.stream_s = some s.addr ∧ s.closed = false
  cleared : ∀ s ∈ sv.clearlist_, s.closed = true

/-- The handler frame in the words of the rule: the first activation record,
from `level` outwards, whose function is the global `pcall` or the global
`xpcall`. -/
def first_handler (L : lua_State) (level : Nat) : Option CallInfo :=
  (L.ci.drop level).find? fun ar =>
    decide (L.globals "pcall" = .function ar.func ∨ L.globals "xpcall" = .function ar.func)

/-- Classification in the words of the rule: pcall if the handler frame is the
global `pcall`, xpcall if it is the global `xpcall`, none if there is no
handler frame. -/
def classify (L : lua_State) (level : Nat) : eCall :=
  match first_handler L level with
  | none => .none
  | some ar => if L.globals "pcall" = .function ar.func then .pcall else .xpcall

/-- Whether an input ends the stopped loop, in the words of the rule: it is a
request, read while the state is not birth, its command is in the main table
or in the hook table, and the handler it is dispatched to returns `quit =
true`.  The world `w` is the one the input is read in, after the poll. -/
def ends_loop (env : Env) (d : debug) (input : Option rprotocol) (w : World) : Bool :=
  match input with
  | none => false
  | some req =>
    if req.type = "request" ∧ w.dbg.state_ ≠ .birth then
      match dispatch_find main_dispatch_ req.command,
          dispatch_find hook_dispatch_ req.command with
      | some h, _ => (env.request_main h req w).1
      | none, some h => (env.request_hook h req d w).1
      | none, none => false
    else false

/-- One iteration of the stopped loop on the input at the head of the inbox:
the poll, then the one input is slept on, skipped, handed to
`request_initialize` or to a handler, or answered with an error. -/
def loop_pass (env : Env) (d : debug) (input : Option rprotocol) (s : State) : State :=
  let s1 : State := { s with w := env.network_update s.w, inbox := s.inbox.tail }
  match input with
  | none => s1.log .sleep
  | some req =>
    if req.type ≠ "request" then s1
    else if s1.w.dbg.is_state .birth then
      if req.command = "initialize" then
        { s1 with w := env.request_init req s1.w, trace := s1.trace ++ [.request_init req] }
      else response_error req (not_yet_implemented req.command ",(stopped)") s1
    else
      match dispatch_find main_dispatch_ req.command,
          dispatch_find hook_dispatch_ req.command with
      | some h, _ =>
        { s1 with w := (env.request_main h req s1.w).2,
                  trace := s1.trace ++ [.request_main h req] }
      | none, some h =>
        { s1 with w := (env.request_hook h req d s1.w).2,
                  trace := s1.trace ++ [.request_hook h req] }
      | none, none => response_error req (not_yet_implemented req.command ",(stopped)") s1

/-- The iterations on a list of inputs, one after the other. -/
def passes (env : Env) (d : debug) : List (Option rprotocol) → State → State
  | [], s => s
  | input :: rest, s => passes env d rest (loop_pass env d input s)

/-- The position of the first input that ends the loop, each input being read
in the state the earlier ones left. -/
def exit_index (env : Env) (d : debug) : List (Option rprotocol) → State → Option Nat
  | [], _ => none
  | input :: rest, s =>
    if ends_loop env d input (env.network_update s.w) then some 0
    else (exit_index env d rest (loop_pass env d input s)).map (· + 1)

/-- Whether a history entry is a call of `reset_session`. -/
def Call.is_reset : Call → Bool
  | .reset_session _ => true
  | _ => false

/-- The calls of `reset_session` of a history, in order. -/
def resets (tr : List Call) : List Call := tr.filter Call.is_reset

/-! ## Concrete inputs for the examples -/

/-- An environment for the examples: the poll brings nothing, every handler
answers `quit`, `hook_line` installs the given function and hint, the
breakpoint manager and the step check answer as given. -/
def Env.sample (cur : Option Nat) (hint bp step : Bool) : Env :=
  { network_update := fun w => w
    request_init := fun _ w => w
    request_main := fun _ _ w => (true, w)
    request_hook := fun _ _ _ w => (true, w)
    enable_thread_result := fun t => t.enabled
    release_thread := fun t => t
    hook_callret := fun _ _ t => t
    hook_line := fun _ _ t => { t with cur_function := cur, has_breakpoint := hint }
    check_step := fun _ _ _ => step
    breakpoint_has := fun _ _ _ _ => bp
    reset_session := fun _ _ t => t
    a2u := fun x => x
    u2a := fun x => x
    source_create := fun _ _ => none }

/-- A Lua state with one script frame running and an error text on its stack. -/
def sample_lua : lua_State :=
  { mainthread := 7
    stack := [.string "boom"]
    globals := fun _ => .nil
    closures := [{ fn := none, upvalues := [] }]
    ci := [{ func := 0, isC := false, currentline := 3 }] }

/-- A Lua state on which no function is running. -/
def sample_lua_idle : lua_State := { sample_lua with ci := [] }

/-- A Lua state whose global `print` is the script function at address 0. -/
def sample_lua_print : lua_State :=
  { sample_lua with globals := fun name => if name = "print" then .function 0 else .nil }

/-- A session in the given state with the given enabled exceptions, in which
the thread of Lua state 7 was attached (id 1). -/
def sample_world (st : eState) (exc : List eException) (L : lua_State) : World :=
  let w := (attach_lua (Env.sample none false false false) 7 (World.fresh 0 0 fun _ => L)).2
  { w with dbg := { w.dbg with state_ := st, exception_ := exc } }

/-- The same session after `detach_lua(L, false)`: thread 1 is registered and
disabled. -/
def sample_world_detached (st : eState) (exc : List eException) (L : lua_State) : World :=
  detach_lua 7 false (sample_world st exc L)

/-- The request `continue`. -/
def sample_continue : rprotocol :=
  { type := "request", command := "continue", seq := 1, arguments := "" }

/-- A state over `sample_world` with a `continue` request waiting. -/
def sample_state (st : eState) (exc : List eException) (L : lua_State) : State :=
  { w := sample_world st exc L, inbox := [some sample_continue], trace := [], hung := false }

/-- A state over `sample_world_detached` with a `continue` request waiting. -/
def sample_state_detached (st : eState) (exc : List eException) (L : lua_State) : State :=
  { w := sample_world_detached st exc L, inbox := [some sample_continue], trace := [],
    hung := false }

/-- A line event on Lua state 7 at line 3. -/
def sample_line : debug := { L := 7, event := some .line, currentline := 3 }

/-! ## Properties -/

/-! ### Thread registry -/

theorem map_insert_append (m : List (Int × luathread)) (k : Int) (t : luathread)
    (h : ∀ e ∈ m, e.1 < k) : map_insert m k t = m ++ [(k, t)] := by
  induction m with
  | nil => rfl
  | cons e m ih =>
    obtain ⟨k1, v⟩ := e
    have h1 : k1 < k := h (k1, v) (List.mem_cons_self _ _)
    have h2 : ¬ k < k1 := by omega
    have h3 : ¬ k1 = k := by omega
    simp only [map_insert, if_neg h2, if_neg h3, List.cons_append]
    rw [ih (fun e he => h e (List.mem_cons_of_mem _ he))]

theorem find_luathread_none {w : World} {L : Nat} (h : find_luathread w L = none) :
    ∀ e ∈ w.dbg.luathreads_, e.2.L ≠ get_mainthread w.vm L := by
  unfold find_luathread at h
  intro e he
  have := List.find?_eq_none.mp h e he
  simpa using this

theorem attach_lua_new (env : Env) (L : Nat) (w : World) (hok : registry_ok w)
    (h : find_luathread w L = none) :
    attach_lua env L w =
      (true, { w with dbg := { w.dbg with
        next_threadid_ := w.dbg.next_threadid_ + 1
        luathreads_ := w.dbg.luathreads_ ++
          [(w.dbg.next_threadid_ + 1,
            luathread.new (w.dbg.next_threadid_ + 1) (get_mainthread w.vm L))] } }) := by
  unfold attach_lua
  simp only [hok.nodebug, h, Bool.false_eq_true, if_false]
  rw [map_insert_append]
  intro e he
  have := (hok.key_bound e he).2
  omega

theorem attach_lua_new_find (env : Env) (L : Nat) (w : World) (hok : registry_ok w)
    (h : find_luathread w L = none) :
    find_luathread (attach_lua env L w).2 L =
      some (w.dbg.next_threadid_ + 1,
        luathread.new (w.dbg.next_threadid_ + 1) (get_mainthread w.vm L)) := by
  rw [attach_lua_new env L w hok h]
  unfold find_luathread at h ⊢
  simp only [List.find?_append, h, Option.none_or]
  simp [luathread.new, List.find?]

theorem attach_lua_known (env : Env) (L : Nat) (w : World) (hok : registry_ok w)
    (k : Int) (t : luathread) (h : find_luathread w L = some (k, t)) :
    attach_lua env L w =
      (!env.enable_thread_result t, w.modify_thread k luathread.enable_thread) := by
  unfold attach_lua
  simp only [hok.nodebug, h, Bool.false_eq_true, if_false]

theorem map_modify_keys (m : List (Int × luathread)) (k : Int) (f : luathread → luathread) :
    (map_modify m k f).map Prod.fst = m.map Prod.fst := by
  unfold map_modify
  rw [List.map_map]
  apply List.map_congr_left
  intro e _
  by_cases h : e.1 = k <;> simp [h]

theorem map_modify_handles (m : List (Int × luathread)) (k : Int) (f : luathread → luathread)
    (hf : ∀ t, (f t).L = t.L) :
    (map_modify m k f).map (fun e => e.2.L) = m.map (fun e => e.2.L) := by
  unfold map_modify
  rw [List.map_map]
  apply List.map_congr_left
  intro e _
  by_cases h : e.1 = k <;> simp [h, hf]

theorem map_modify_mem {m : List (Int × luathread)} {k : Int} {f : luathread → luathread}
    {e : Int × luathread} (h : e ∈ map_modify m k f) :
    ∃ e0 ∈ m, e.1 = e0.1 ∧ (e.2 = e0.2 ∨ e.2 = f e0.2) := by
  unfold map_modify at h
  obtain ⟨e0, he0, rfl⟩ := List.mem_map.mp h
  refine ⟨e0, he0, ?_⟩
  by_cases hk : e0.1 = k <;> simp [hk]

theorem find_luathread_modify (w : World) (L : Nat) (k : Int) (t : luathread)
    (f : luathread → luathread) (hL : ∀ t, (f t).L = t.L)
    (h : find_luathread w L = some (k, t)) :
    find_luathread (w.modify_thread k f) L = some (k, f t) := by
  unfold find_luathread at h ⊢
  show (map_modify w.dbg.luathreads_ k f).find? _ = _
  unfold map_modify
  rw [List.find?_map]
  have hp : ((fun e : Int × luathread => decide (e.2.L = get_mainthread w.vm L)) ∘
      fun e : Int × luathread => if e.1 = k then (e.1, f e.2) else e)
      = fun e : Int × luathread => decide (e.2.L = get_mainthread w.vm L) := by
    funext e
    by_cases hk : e.1 = k <;> simp [hk, hL]
  have hvm : (w.modify_thread k f).vm = w.vm := rfl
  rw [hvm, hp, h]
  simp

theorem registry_ok_modify (w : World) (k : Int) (f : luathread → luathread)
    (hid : ∀ t, (f t).id = t.id) (hL : ∀ t, (f t).L = t.L) (hok : registry_ok w) :
    registry_ok (w.modify_thread k f) := by
  refine ⟨hok.nodebug, hok.counter, ?_, ?_, ?_⟩
  · intro e he
    obtain ⟨e0, he0, h1, h2⟩ := map_modify_mem he
    have := hok.key_id e0 he0
    rcases h2 with h2 | h2 <;> simp [h1, h2, this, hid]
  · intro e he
    obtain ⟨e0, he0, h1, _⟩ := map_modify_mem he
    have := hok.key_bound e0 he0
    simpa [h1, World.modify_thread] using this
  · show ((map_modify w.dbg.luathreads_ k f).map (fun e => e.2.L)).Nodup
    rw [map_modify_handles _ _ _ hL]
    exact hok.handles

theorem registry_ok_attach (env : Env) (L : Nat) (w : World) (hok : registry_ok w) :
    registry_ok (attach_lua env L w).2 := by
  cases h : find_luathread w L with
  | none =>
    rw [attach_lua_new env L w hok h]
    refine ⟨hok.nodebug, ?_, ?_, ?_, ?_⟩
    · have := hok.counter
      show 0 ≤ w.dbg.next_threadid_ + 1
      omega
    · intro e he
      rcases List.mem_append.mp he with he | he
      · exact hok.key_id e he
      · simp only [List.mem_singleton] at he
        subst he
        rfl
    · intro e he
      rcases List.mem_append.mp he with he | he
      · have := hok.key_bound e he
        exact ⟨this.1, by simp only; omega⟩
      · simp only [List.mem_singleton] at he
        subst he
        have hn := hok.counter
        exact ⟨by simp only; omega, le_refl _⟩
    · show ((w.dbg.luathreads_ ++ _).map (fun e => e.2.L)).Nodup
      rw [List.map_append]
      refine List.Nodup.append hok.handles (List.nodup_singleton _) ?_
      intro a ha hb
      simp only [List.map_cons, List.map_nil, List.mem_singleton] at hb
      obtain ⟨e, he, rfl⟩ := List.mem_map.mp ha
      exact find_luathread_none h e he hb
  | some p =>
    obtain ⟨k, t⟩ := p
    rw [attach_lua_known env L w hok k t h]
    exact registry_ok_modify w k _ (fun _ => rfl) (fun _ => rfl) hok

theorem registry_ok_sublist (w : World) (m : List (Int × luathread))
    (hm : m.Sublist w.dbg.luathreads_) (hok : registry_ok w) :
    registry_ok { w with dbg := { w.dbg with luathreads_ := m } } := by
  refine ⟨hok.nodebug, hok.counter, ?_, ?_, ?_⟩
  · intro e he
    exact hok.key_id e (hm.subset he)
  · intro e he
    exact hok.key_bound e (hm.subset he)
  · exact hok.handles.sublist (hm.map _)

theorem registry_ok_detach (L : Nat) (remove : Bool) (w : World) (hok : registry_ok w) :
    registry_ok (detach_lua L remove w) := by
  unfold detach_lua
  cases h : find_luathread w L with
  | none => exact hok
  | some p =>
    obtain ⟨k, t⟩ := p
    cases remove with
    | true => exact registry_ok_sublist w _ (List.filter_sublist _) hok
    | false => exact registry_ok_modify w k _ (fun _ => rfl) (fun _ => rfl) hok

theorem registry_ok_detach_all (env : Env) (release : Bool) (w : World) (hok : registry_ok w) :
    registry_ok (detach_all env release w) := by
  unfold detach_all
  cases release with
  | true => exact registry_ok_sublist w [] (List.nil_sublist _) hok
  | false =>
    refine ⟨hok.nodebug, hok.counter, ?_, ?_, ?_⟩
    · intro e he
      obtain ⟨e0, he0, rfl⟩ := List.mem_map.mp he
      exact hok.key_id e0 he0
    · intro e he
      obtain ⟨e0, he0, rfl⟩ := List.mem_map.mp he
      exact hok.key_bound e0 he0
    · show ((w.dbg.luathreads_.map
        (fun e : Int × luathread => (e.1, e.2.disable_thread))).map (fun e => e.2.L)).Nodup
      rw [List.map_map]
      exact hok.handles

theorem registry_ok_apply (env : Env) (op : RegistryOp) (w : World) (hok : registry_ok w) :
    registry_ok (op.apply env w) := by
  cases op with
  | attach L => exact registry_ok_attach env L w hok
  | detach L remove => exact registry_ok_detach L remove w hok
  | detach_all release => exact registry_ok_detach_all env release w hok

theorem registry_ok_fresh (self_addr managers : Nat) (vm : Nat → lua_State) :
    registry_ok (World.fresh self_addr managers vm) := by
  refine ⟨rfl, le_refl _, ?_, ?_, ?_⟩
  · intro e he
    cases he
  · intro e he
    cases he
  · exact List.nodup_nil

theorem registry_ok_run (env : Env) (ops : List RegistryOp) (w : World) (hok : registry_ok w) :
    registry_ok (run_registry env ops w) := by
  induction ops generalizing w with
  | nil => exact hok
  | cons op rest ih => exact ih _ (registry_ok_apply env op w hok)

theorem counter_detach (L : Nat) (remove : Bool) (w : World) :
    (detach_lua L remove w).dbg.next_threadid_ = w.dbg.next_threadid_ := by
  unfold detach_lua
  cases h : find_luathread w L with
  | none => rfl
  | some p => cases remove <;> rfl

theorem counter_detach_all (env : Env) (release : Bool) (w : World) :
    (detach_all env release w).dbg.next_threadid_ = w.dbg.next_threadid_ := by
  unfold detach_all
  cases release <;> rfl

/-- From a well-formed registry whose counter is `n`, a run hands out
`n + 1, n + 2, ...` and leaves the counter at `n` plus the number handed out. -/
theorem assigned_ids_from (env : Env) (ops : List RegistryOp) (w : World)
    (hok : registry_ok w) :
    assigned_ids env ops w =
        (List.range (assigned_ids env ops w).length).map
          (fun (i : Nat) => w.dbg.next_threadid_ + 1 + (i : Int))
      ∧ (run_registry env ops w).dbg.next_threadid_ =
          w.dbg.next_threadid_ + ((assigned_ids env ops w).length : Int) := by
  induction ops generalizing w with
  | nil => simp [assigned_ids, run_registry]
  | cons op rest ih =>
    cases op with
    | attach L =>
      have ih1 := ih _ (registry_ok_attach env L w hok)
      cases h : find_luathread w L with
      | none =>
        have hc : (attach_lua env L w).2.dbg.next_threadid_ = w.dbg.next_threadid_ + 1 := by
          rw [attach_lua_new env L w hok h]
        simp only [assigned_ids, run_registry, RegistryOp.apply, h,
          attach_lua_new_find env L w hok h, Option.map_some', Option.toList_some,
          List.singleton_append, List.length_cons]
        rw [hc] at ih1
        refine ⟨?_, ?_⟩
        · rw [List.range_succ_eq_map, List.map_cons, List.map_map]
          congr 1
          · simp [luathread.new]
          · refine ih1.1.trans ?_
            apply List.map_congr_left
            intro i _
            simp only [Function.comp, Nat.succ_eq_add_one, Nat.cast_add, Nat.cast_one]
            omega
        · rw [ih1.2]
          push_cast
          omega
      | some p =>
        obtain ⟨k, t⟩ := p
        have hc : (attach_lua env L w).2.dbg.next_threadid_ = w.dbg.next_threadid_ := by
          rw [attach_lua_known env L w hok k t h]
          rfl
        rw [hc] at ih1
        simpa only [assigned_ids, run_registry, RegistryOp.apply, h, List.nil_append] using ih1
    | detach L remove =>
      have ih1 := ih _ (registry_ok_detach L remove w hok)
      rw [counter_detach] at ih1
      simpa only [assigned_ids, run_registry, RegistryOp.apply] using ih1
    | detach_all release =>
      have ih1 := ih _ (registry_ok_detach_all env release w hok)
      rw [counter_detach_all] at ih1
      simpa only [assigned_ids, run_registry, RegistryOp.apply] using ih1

theorem assigned_ids_length (env : Env) (ops : List RegistryOp) (w : World) :
    (assigned_ids env ops w).length ≤ ops.length := by
  induction ops generalizing w with
  | nil => simp [assigned_ids]
  | cons op rest ih =>
    cases op with
    | attach L =>
      simp only [assigned_ids, List.length_append, List.length_cons]
      have h1 := ih (attach_lua env L w).2
      have h2 : (match find_luathread w L with
          | some _ => ([] : List Int)
          | none => ((find_luathread (attach_lua env L w).2 L).map
              (fun (e : Int × luathread) => e.2.id)).toList).length ≤ 1 := by
        cases find_luathread w L with
        | some _ => simp
        | none =>
          cases find_luathread (attach_lua env L w).2 L <;> simp
      omega
    | detach L remove =>
      simp only [assigned_ids, List.length_cons]
      have h1 := ih (RegistryOp.apply env (.detach L remove) w)
      omega
    | detach_all release =>
      simp only [assigned_ids, List.length_cons]
      have h1 := ih (RegistryOp.apply env (.detach_all release) w)
      omega

/-- C7. From a freshly constructed session, after any sequence of
`attach_lua`, `detach_lua` and `detach_all` calls: the ids handed out to newly
registered threads are 1, 2, 3, ... in registration order (so they increase
strictly and are never reused, whatever was detached or removed in between);
every registry key is the id of the thread stored under it; no two entries
hold the same main-thread handle; `attach_lua` on an unregistered thread
returns true and registers it under the next id; `attach_lua` on a registered
thread only sets its enabled flag, keeping keys and counter.  The counter is
the number of ids handed out, at most the number of calls made. -/
theorem registry_ids_monotonic_and_unique (env : Env) (self_addr managers : Nat)
    (vm : Nat → lua_State) (ops : List RegistryOp) :
    let w0 := World.fresh self_addr managers vm
    let w := run_registry env ops w0
    assigned_ids env ops w0 =
        (List.range (assigned_ids env ops w0).length).map (fun (i : Nat) => (i : Int) + 1)
      ∧ w.dbg.next_threadid_ = ((assigned_ids env ops w0).length : Int)
      ∧ (assigned_ids env ops w0).length ≤ ops.length
      ∧ (∀ e ∈ w.dbg.luathreads_, e.1 = e.2.id)
      ∧ (w.dbg.luathreads_.map (fun e => e.2.L)).Nodup
      ∧ (∀ L, find_luathread w L = none →
          (attach_lua env L w).1 = true
          ∧ find_luathread (attach_lua env L w).2 L =
              some (w.dbg.next_threadid_ + 1,
                luathread.new (w.dbg.next_threadid_ + 1) (get_mainthread w.vm L))
          ∧ (attach_lua env L w).2.dbg.luathreads_ =
              w.dbg.luathreads_ ++ [(w.dbg.next_threadid_ + 1,
                luathread.new (w.dbg.next_threadid_ + 1) (get_mainthread w.vm L))]
          ∧ (attach_lua env L w).2.dbg.next_threadid_ = w.dbg.next_threadid_ + 1)
      ∧ (∀ L k t, find_luathread w L = some (k, t) →
          (attach_lua env L w).2 = w.modify_thread k luathread.enable_thread
          ∧ (attach_lua env L w).2.dbg.luathreads_.map Prod.fst =
              w.dbg.luathreads_.map Prod.fst
          ∧ (attach_lua env L w).2.dbg.next_threadid_ = w.dbg.next_threadid_
          ∧ find_luathread (attach_lua env L w).2 L = some (k, { t with enabled := true })) := by
  intro w0 w
  have hok0 : registry_ok w0 := registry_ok_fresh self_addr managers vm
  have hok : registry_ok w := registry_ok_run env ops w0 hok0
  have ha := assigned_ids_from env ops w0 hok0
  have h0 : w0.dbg.next_threadid_ = 0 := rfl
  refine ⟨?_, ?_, assigned_ids_length env ops w0, hok.key_id, hok.handles, ?_, ?_⟩
  · refine ha.1.trans ?_
    apply List.map_congr_left
    intro i _
    rw [h0]
    omega
  · rw [ha.2, h0]
    omega
  · intro L h
    refine ⟨?_, attach_lua_new_find env L w hok h, ?_, ?_⟩ <;>
      rw [attach_lua_new env L w hok h]
  · intro L k t h
    have hk := attach_lua_known env L w hok k t h
    refine ⟨by rw [hk], ?_, by rw [hk]; rfl, ?_⟩
    · rw [hk]
      exact map_modify_keys _ _ _
    · rw [hk]
      exact find_luathread_modify w L k t _ (fun _ => rfl) h

/-! ### Stops -/

theorem stops_append (a b : List Call) : stops (a ++ b) = stops a ++ stops b := by
  simp [stops]

theorem response_error_stops (req : rprotocol) (msg : String) (s : State) :
    stops (response_error req msg s).trace = stops s.trace := by
  simp [response_error, stops_append, stops, Call.is_stop]

theorem update_main_stops (env : Env) (req : rprotocol) (q : Bool) (s : State) :
    stops (update_main env req q s).2.2.trace = stops s.trace := by
  unfold update_main
  cases dispatch_find main_dispatch_ req.command <;>
    simp [stops_append, stops, Call.is_stop]

theorem update_hook_stops (env : Env) (req : rprotocol) (d : debug) (q : Bool) (s : State) :
    stops (update_hook env req d q s).2.2.trace = stops s.trace := by
  unfold update_hook
  cases dispatch_find hook_dispatch_ req.command <;>
    simp [stops_append, stops, Call.is_stop]

theorem stopped_loop_stops (env : Env) (d : debug) (inbox : List (Option rprotocol))
    (s : State) : stops (stopped_loop env d inbox s).trace = stops s.trace := by
  induction inbox generalizing s with
  | nil => rfl
  | cons input rest ih =>
    cases input with
    | none =>
      simp only [stopped_loop]
      rw [ih]
      simp [State.log, stops_append, stops, Call.is_stop]
    | some req =>
      simp only [stopped_loop]
      split_ifs with h1 h2 h3
      · rw [ih]
      · rw [ih]
        simp [stops_append, stops, Call.is_stop]
      · rw [ih, response_error_stops]
      · have hm := update_main_stops env req false
          { s with w := env.network_update s.w, inbox := rest }
        split
        · rename_i q s2 heq
          rw [heq] at hm
          split_ifs
          · exact hm
          · rw [ih]
            exact hm
        · rename_i q s2 heq
          rw [heq] at hm
          have hh := update_hook_stops env req d false s2
          split
          · rename_i q3 s3 heq3
            rw [heq3] at hh
            split_ifs
            · exact hh.trans hm
            · rw [ih]
              exact hh.trans hm
          · rename_i q3 s3 heq3
            rw [heq3] at hh
            rw [ih, response_error_stops]
            exact hh.trans hm

theorem andThen_trace_stops (s : State) (f : State → State)
    (hf : ∀ x, stops (f x).trace = stops x.trace) :
    stops (s.andThen f).trace = stops s.trace := by
  unfold State.andThen
  split_ifs
  · rfl
  · exact hf s

theorem run_stopped_stops (env : Env) (thread : Int) (d : debug) (reason : String)
    (description : Option String) (s : State) :
    stops (run_stopped env thread d reason description s).trace =
      stops s.trace ++ [.run_stopped thread reason description] := by
  unfold run_stopped
  simp only
  rw [andThen_trace_stops, stopped_loop_stops]
  · simp [stops_append, stops, Call.is_stop]
  · intro x
    simp [State.log, State.modify_thread, stops_append, stops, Call.is_stop]

theorem traceCall_loop_snd (frames : List CallInfo) (L : lua_State) (x p : LuaValue)
    (st : List LuaValue) (h : L.stack = x :: p :: st) :
    (traceCall_loop frames L).2 = { L with stack := st } := by
  induction frames with
  | nil => simp [traceCall_loop, lua_pop, h]
  | cons ar rest ih =>
    simp only [traceCall_loop]
    split_ifs
    · simp [lua_pop, lua_push, h]
    · simp [lua_pop, lua_push, h]
    · have : lua_pop 1 (lua_push (.function ar.func) L) = L := by
        simp [lua_pop, lua_push]
      rw [this]
      exact ih

theorem getglobal_or_nil (name : String) (M : lua_State) :
    ∃ v, (if (lua_getglobal name M).1.isFunction then (lua_getglobal name M).2
        else lua_pushnil (lua_pop 1 (lua_getglobal name M).2)) = lua_push v M := by
  by_cases h : (lua_getglobal name M).1.isFunction
  · exact ⟨M.globals name, by rw [if_pos h]; rfl⟩
  · exact ⟨.nil, by rw [if_neg h]; rfl⟩

/-- The call `traceCall(L, level)` leaves the Lua state as it found it. -/
theorem traceCall_snd (L : lua_State) (level : Nat) : (traceCall L level).2 = L := by
  unfold traceCall
  simp only
  obtain ⟨p, hp⟩ := getglobal_or_nil "pcall" L
  rw [hp]
  obtain ⟨x, hx⟩ := getglobal_or_nil "xpcall" (lua_push p L)
  rw [hx]
  rw [traceCall_loop_snd _ _ x p L.stack rfl]
  rfl

theorem map_find_modify (m : List (Int × luathread)) (k : Int) (f : luathread → luathread) :
    map_find (map_modify m k f) k = (map_find m k).map f := by
  induction m with
  | nil => rfl
  | cons e rest ih =>
    obtain ⟨k1, t⟩ := e
    have ih1 : map_find (List.map (fun e => if e.1 = k then (e.1, f e.2) else e) rest) k
        = Option.map f (map_find rest k) := ih
    show map_find ((if k1 = k then (k1, f t) else (k1, t)) :: map_modify rest k f) k = _
    by_cases h : k1 = k
    · rw [if_pos h]
      simp [map_find, h]
    · rw [if_neg h]
      simp only [map_find, if_neg h]
      exact ih

theorem exception_nolock_skip (env : Env) (thread : Int) (L : Nat) (ty : eException)
    (level : Int) (s : State) (h : ty ∉ s.w.dbg.exception_ ∨ (s.w.vm L).ci = []) :
    exception_nolock env thread L ty level s = s := by
  unfold exception_nolock
  by_cases hm : ty ∈ s.w.dbg.exception_
  · have hc : (s.w.vm L).ci = [] := by
      rcases h with h | h
      · exact absurd hm h
      · exact h
    simp [hm, lua_getstack, hc]
  · simp [hm]

theorem exception_nolock_run (env : Env) (thread : Int) (L : Nat) (ty : eException)
    (level : Int) (s : State) (hm : ty ∈ s.w.dbg.exception_) (ar : CallInfo)
    (rest : List CallInfo) (hc : (s.w.vm L).ci = ar :: rest) :
    exception_nolock env thread L ty level s =
      (run_stopped env thread { L := L, event := none, currentline := ar.currentline }
        "exception" (exception_text (s.w.vm L))
        (s.modify_vm L (lua_pushinteger level))).andThen
        fun s3 => s3.modify_vm L (lua_pop 1) := by
  unfold exception_nolock
  have h1 : hasFrame ((s.modify_vm L (lua_pushinteger level)).w.vm L) = hasFrame (s.w.vm L) := by
    simp [State.modify_vm, World.modify_vm, lua_pushinteger, lua_push, hasFrame]
  have h2 : lua_index ((s.modify_vm L (lua_pushinteger level)).w.vm L) 1
      = (s.w.vm L).stack.head? := by
    simp [State.modify_vm, World.modify_vm, lua_pushinteger, lua_push, lua_index,
      List.head?_eq_getElem?]
  simp only [hm, not_true_eq_false, if_false, lua_getstack, hc, List.get?_cons_zero, h1, h2,
    exception_text]
  congr 1
  cases hasFrame (s.w.vm L) <;> cases (s.w.vm L).stack.head? <;> try rfl
  rename_i v
  cases v <;> rfl

theorem exception_nolock_stops (env : Env) (thread : Int) (L : Nat) (ty : eException)
    (level : Int) (s : State) :
    stops (exception_nolock env thread L ty level s).trace =
      stops s.trace ++ exception_stop s.w thread L ty := by
  unfold exception_stop
  by_cases h : ty ∈ s.w.dbg.exception_ ∧ (s.w.vm L).ci ≠ []
  · obtain ⟨ar, rest, hc⟩ := List.exists_cons_of_ne_nil h.2
    rw [exception_nolock_run env thread L ty level s h.1 ar rest hc, if_pos h,
      andThen_trace_stops, run_stopped_stops]
    · rfl
    · intro x
      rfl
  · rw [if_neg h, exception_nolock_skip, List.append_nil]
    by_cases hm : ty ∈ s.w.dbg.exception_
    · right
      by_contra hc
      exact h ⟨hm, hc⟩
    · left
      exact hm

theorem stops_snoc_other (tr : List Call) (c : Call) (h : c.is_stop = false) :
    stops (tr ++ [c]) = stops tr := by
  simp [stops, h]

theorem is_state_iff (dbg : debugger_impl) (st : eState) :
    dbg.is_state st = true ↔ dbg.state_ = st := by
  simp [debugger_impl.is_state]

theorem hook_step_stops (env : Env) (thread : Int) (t : luathread) (d : debug) (s : State) :
    stops (hook_step env thread t d s).trace =
      stops s.trace ++
        (if s.w.dbg.state_ = .stepping ∧ env.check_step d.L s.w t = true then
          [.run_stopped thread s.w.dbg.stopReason_ none] else []) := by
  unfold hook_step
  by_cases h1 : s.w.dbg.state_ = .stepping
  · rw [if_pos ((is_state_iff _ _).mpr h1)]
    by_cases h2 : env.check_step d.L s.w t = true
    · simp only [h2, if_true, h1, and_self]
      rw [run_stopped_stops]
      show stops (s.trace ++ [_]) ++ _ = _
      rw [stops_snoc_other _ (.check_step thread) rfl]
    · simp only [h2, if_false, h1, and_false, Bool.false_eq_true, List.append_nil]
      exact stops_snoc_other _ _ rfl
  · have h3 : ¬ s.w.dbg.is_state .stepping = true := fun h => h1 ((is_state_iff _ _).mp h)
    rw [if_neg h3]
    simp [h1]

theorem hook_body_stops (env : Env) (thread : Int) (d : debug) (s : State) :
    stops (hook_body env thread d
        (s.modify_thread thread fun t => { t with busy := true })).trace =
      stops s.trace ++ hook_stop env thread d s.w := by
  unfold hook_body hook_stop
  have hst : (s.modify_thread thread fun t => { t with busy := true }).w.dbg.state_
      = s.w.dbg.state_ := rfl
  by_cases h0 : s.w.dbg.state_ = .terminated ∨ s.w.dbg.state_ = .birth
      ∨ s.w.dbg.state_ = .initialized
  · have : ((s.modify_thread thread fun t => { t with busy := true }).w.dbg.is_state .terminated
        || (s.modify_thread thread fun t => { t with busy := true }).w.dbg.is_state .birth
        || (s.modify_thread thread fun t => { t with busy := true }).w.dbg.is_state .initialized)
        = true := by
      simp only [Bool.or_eq_true, is_state_iff, hst]
      tauto
    rw [if_pos this, if_pos h0, List.append_nil]
    rfl
  · have : ¬ ((s.modify_thread thread fun t => { t with busy := true }).w.dbg.is_state .terminated
        || (s.modify_thread thread fun t => { t with busy := true }).w.dbg.is_state .birth
        || (s.modify_thread thread fun t => { t with busy := true }).w.dbg.is_state .initialized)
        = true := by
      simp only [Bool.or_eq_true, is_state_iff, hst]
      tauto
    rw [if_neg this, if_neg h0]
    by_cases h1 : d.event = some .call ∨ d.event = some .tailcall ∨ d.event = some .ret
    · rw [if_pos h1]
      have : stops s.trace ++ (match d.event with
          | some .exception =>
            exception_stop s.w thread d.L (exception_kind (traceCall (s.w.vm d.L) 0).1)
          | some .line => line_stop env thread d s.w
          | _ => []) = stops s.trace := by
        rcases h1 with h | h | h <;> rw [h] <;> simp
      rw [this]
      exact stops_snoc_other _ _ rfl
    · rw [if_neg h1]
      by_cases h2 : d.event = some .exception
      · rw [if_pos h2, h2]
        simp only
        have hvm : Function.update
            (s.modify_thread thread fun t => { t with busy := true }).w.vm d.L
            (traceCall ((s.modify_thread thread fun t => { t with busy := true }).w.vm d.L) 0).2
            = s.w.vm := by
          rw [traceCall_snd]
          exact Function.update_eq_self _ _
        rw [hvm]
        have hk : (traceCall ((s.modify_thread thread fun t =>
            { t with busy := true }).w.vm d.L) 0).1 = (traceCall (s.w.vm d.L) 0).1 := rfl
        rw [hk]
        cases hc : (traceCall (s.w.vm d.L) 0).1 <;>
          simp only [exception_kind] <;> rw [exception_nolock_stops] <;> rfl
      · rw [if_neg h2]
        by_cases h3 : d.event = some .line
        · have h3n : ¬ d.event ≠ some .line := fun h => h h3
          rw [if_neg h3n, h3]
          simp only
          unfold line_stop
          simp only
          have hw : ((s.modify_thread thread fun t => { t with busy := true }).modify_thread
              thread (env.hook_line d
                (s.modify_thread thread fun t => { t with busy := true }).w)).w
              = line_world env thread d s.w := rfl
          have hlog : ∀ c, ((((s.modify_thread thread fun t =>
              { t with busy := true }).modify_thread
              thread (env.hook_line d
                (s.modify_thread thread fun t => { t with busy := true }).w)).log c).w)
              = line_world env thread d s.w := fun _ => rfl
          rw [hlog]
          cases hf : find_luathread_id (line_world env thread d s.w) thread with
          | none =>
            simp only [List.append_nil]
            exact stops_snoc_other _ _ rfl
          | some t =>
            simp only
            cases hcf : t.cur_function with
            | none =>
              simp only [List.append_nil]
              exact stops_snoc_other _ _ rfl
            | some f =>
              simp only
              have hstate : (line_world env thread d s.w).dbg.state_ = s.w.dbg.state_ := rfl
              have hreason : (line_world env thread d s.w).dbg.stopReason_
                  = s.w.dbg.stopReason_ := rfl
              by_cases hb : 0 < d.currentline ∧ t.has_breakpoint = true
              · rw [if_pos hb]
                by_cases hh : env.breakpoint_has f d.currentline d (line_world env thread d s.w)
                    = true
                · rw [if_pos hh, if_pos ⟨hb.1, hb.2, hh⟩, run_stopped_stops]
                  congr 1
                  show stops (_ ++ [_]) = _
                  rw [stops_snoc_other _ (.breakpoint_has thread d.currentline) rfl]
                  exact stops_snoc_other _ _ rfl
                · rw [if_neg hh, if_neg (fun h => hh h.2.2), hook_step_stops]
                  simp only [State.log, hlog, hstate, hreason]
                  congr 1
                  rw [stops_snoc_other _ (.breakpoint_has thread d.currentline) rfl]
                  exact stops_snoc_other _ _ rfl
              · rw [if_neg hb, if_neg (fun h => hb ⟨h.1, h.2.1⟩), hook_step_stops]
                simp only [State.log, hlog, hstate, hreason]
                congr 1
                exact stops_snoc_other _ _ rfl
        · have h3n : d.event ≠ some .line := h3
          rw [if_pos h3n]
          have : (match d.event with
              | some .exception =>
                exception_stop s.w thread d.L (exception_kind (traceCall (s.w.vm d.L) 0).1)
              | some .line => line_stop env thread d s.w
              | _ => []) = [] := by
            cases he : d.event with
            | none => rfl
            | some e =>
              cases e <;> first | rfl | exact absurd he h2 | exact absurd he h3
          rw [this, List.append_nil]
          rfl

/-- The entries into `run_stopped` made by one `hook` call are those of its
stop decision. -/
theorem hook_stops (env : Env) (thread : Int) (d : debug) (s : State) :
    stops (hook env thread d s).trace = stops s.trace ++ hook_stop env thread d s.w := by
  unfold hook
  rw [andThen_trace_stops, hook_body_stops]
  intro x
  rfl


theorem map_modify_modify (m : List (Int × luathread)) (k : Int) (f g : luathread → luathread) :
    map_modify (map_modify m k f) k g = map_modify m k (fun t => g (f t)) := by
  unfold map_modify
  rw [List.map_map]
  apply List.map_congr_left
  intro e _
  by_cases h : e.1 = k <;> simp [h]

theorem map_modify_id (m : List (Int × luathread)) (k : Int) (f : luathread → luathread)
    (h : ∀ e ∈ m, e.1 = k → f e.2 = e.2) : map_modify m k f = m := by
  unfold map_modify
  conv_rhs => rw [← List.map_id m]
  apply List.map_congr_left
  intro e he
  by_cases hk : e.1 = k
  · subst hk
    simp [h e he rfl]
  · simp [hk]

/-- An error event whose kind is not enabled, or that finds no activation
record, leaves everything as it was, with the busy flag of the thread down. -/
theorem hook_exception_skip (env : Env) (thread : Int) (d : debug) (s : State)
    (hnh : s.hung = false)
    (hstate : s.w.dbg.state_ = .running ∨ s.w.dbg.state_ = .stepping)
    (hev : d.event = some .exception)
    (hskip : exception_kind (traceCall (s.w.vm d.L) 0).1 ∉ s.w.dbg.exception_
      ∨ (s.w.vm d.L).ci = []) :
    hook env thread d s = s.modify_thread thread fun t => { t with busy := false } := by
  have h0 : ¬ ((s.modify_thread thread fun t => { t with busy := true }).w.dbg.is_state
        .terminated
      || (s.modify_thread thread fun t => { t with busy := true }).w.dbg.is_state .birth
      || (s.modify_thread thread fun t => { t with busy := true }).w.dbg.is_state .initialized)
      = true := by
    have hst : (s.modify_thread thread fun t => { t with busy := true }).w.dbg.state_
        = s.w.dbg.state_ := rfl
    simp only [Bool.or_eq_true, is_state_iff, hst]
    rcases hstate with h | h <;> rw [h] <;> simp
  have h1 : ¬ (d.event = some .call ∨ d.event = some .tailcall ∨ d.event = some .ret) := by
    rw [hev]
    simp
  have hvm : Function.update
      (s.modify_thread thread fun t => { t with busy := true }).w.vm d.L
      (traceCall ((s.modify_thread thread fun t => { t with busy := true }).w.vm d.L) 0).2
      = (s.modify_thread thread fun t => { t with busy := true }).w.vm := by
    rw [traceCall_snd]
    exact Function.update_eq_self _ _
  have hbody : hook_body env thread d (s.modify_thread thread fun t => { t with busy := true })
      = s.modify_thread thread fun t => { t with busy := true } := by
    unfold hook_body
    rw [if_neg h0, if_neg h1, if_pos hev]
    simp only
    rw [hvm]
    have hk : (traceCall ((s.modify_thread thread fun t =>
        { t with busy := true }).w.vm d.L) 0).1 = (traceCall (s.w.vm d.L) 0).1 := rfl
    rw [hk]
    cases hc : (traceCall (s.w.vm d.L) 0).1 <;> rw [hc] at hskip <;>
      simp only [exception_kind] at hskip ⊢ <;> exact exception_nolock_skip _ _ _ _ _ _ hskip
  unfold hook
  rw [hbody]
  unfold State.andThen
  have hh : (s.modify_thread thread fun t => { t with busy := true }).hung = false := hnh
  rw [hh]
  simp only [Bool.false_eq_true, if_false, State.modify_thread, World.modify_thread]
  rw [map_modify_modify]

/-- C1 (amended). `hook`, `exception` and `panic` do not consult the enabled
flag.  For a registered thread whose enabled flag is false they enter
`run_stopped` exactly as their stop decisions say: `hook` never does in the
states terminated, birth and initialized nor on call, tailcall and return
events, and otherwise stops on an error event iff its kind is enabled and the
VM has an activation record, on a line event as the line rule says;
`exception` and `panic` stop iff the kind (for `panic`: lua_panic) is enabled
and the VM has an activation record. -/
theorem disabled_thread_stop_decisions (env : Env) (s : State) (thread : Int) (t : luathread)
    (_hreg : find_luathread_id s.w thread = some t) (_hdis : t.enabled = false) :
    (∀ d, stops (hook env thread d s).trace = stops s.trace ++ hook_stop env thread d s.w)
    ∧ (∀ d, s.w.dbg.state_ = .terminated ∨ s.w.dbg.state_ = .birth
          ∨ s.w.dbg.state_ = .initialized →
        stops (hook env thread d s).trace = stops s.trace)
    ∧ (∀ d, d.event = some .call ∨ d.event = some .tailcall ∨ d.event = some .ret →
        stops (hook env thread d s).trace = stops s.trace)
    ∧ (∀ L kind level, find_luathread s.w L = some (thread, t) →
        stops (exception env (some L) kind level s).2.trace =
          stops s.trace ++ exception_stop s.w thread L kind)
    ∧ (∀ L, stops (panic env thread L s).trace =
        stops s.trace ++ exception_stop s.w thread L .lua_panic) := by
  refine ⟨fun d => hook_stops env thread d s, ?_, ?_, ?_, ?_⟩
  · intro d h
    rw [hook_stops]
    unfold hook_stop
    rw [if_pos h, List.append_nil]
  · intro d h
    rw [hook_stops]
    unfold hook_stop
    split_ifs
    · rw [List.append_nil]
    · rcases h with h | h | h <;> rw [h] <;> simp
  · intro L kind level h
    unfold exception exception_at
    simp only [h]
    exact exception_nolock_stops env thread L kind level s
  · intro L
    exact exception_nolock_stops env thread L .lua_panic 0 s

/-- C1, as stated, fails: thread 1 is registered and disabled, the session is
running with lua_pcall and lua_panic enabled, a script frame is active; both
`exception(L, lua_pcall, 0)` and `panic(thread, L)` enter `run_stopped`. -/
theorem disabled_thread_does_stop :
    (find_luathread_id (sample_world_detached .running [.lua_pcall, .lua_panic] sample_lua) 1).map
        (fun t => t.enabled) = some false
    ∧ stops (exception (Env.sample none false false false) (some 7) .lua_pcall 0
        (sample_state_detached .running [.lua_pcall, .lua_panic] sample_lua)).2.trace
        = [.run_stopped 1 "exception" none]
    ∧ stops (panic (Env.sample none false false false) 1 7
        (sample_state_detached .running [.lua_pcall, .lua_panic] sample_lua)).trace
        = [.run_stopped 1 "exception" none] := by
  decide

/-- Witness for C1: the disabled thread 1 of the sample session, whose `hook`
makes no stop while the session is in state birth. -/
theorem disabled_thread_stop_decisions_witness :
    find_luathread_id (sample_state_detached .birth [] sample_lua).w 1
        = some { luathread.new 1 7 with enabled := false }
    ∧ stops (hook (Env.sample none false false false) 1 sample_line
        (sample_state_detached .birth [] sample_lua)).trace
        = stops (sample_state_detached .birth [] sample_lua).trace :=
  ⟨by decide,
   (disabled_thread_stop_decisions (Env.sample none false false false)
      (sample_state_detached .birth [] sample_lua) 1 { luathread.new 1 7 with enabled := false }
      (by decide) (by decide)).2.1 sample_line (Or.inr (Or.inl (by decide)))⟩

/-- C2 (amended). A line event delivered to `hook` while the session is
running or stepping, for a thread that has a current function once
`hook_line` has run: if the line is positive, the thread's has_breakpoint hint
is set and the breakpoint manager reports a breakpoint on (current function,
current line), `hook` stops with reason "breakpoint", whatever the state and
the step check say; otherwise it stops with the step reason `stopReason_`
exactly when the state is stepping and the step check succeeds; otherwise it
does not stop.  A thread without a current function does not stop.  In every
case `run_stopped` is entered at most once. -/
theorem line_event_stop_rule (env : Env) (thread : Int) (d : debug) (s : State)
    (t : luathread)
    (hstate : s.w.dbg.state_ = .running ∨ s.w.dbg.state_ = .stepping)
    (hline : d.event = some .line)
    (ht : find_luathread_id (line_world env thread d s.w) thread = some t) :
    (∀ f, t.cur_function = some f →
      ((0 < d.currentline ∧ t.has_breakpoint = true
          ∧ env.breakpoint_has f d.currentline d (line_world env thread d s.w) = true) →
        stops (hook env thread d s).trace =
          stops s.trace ++ [.run_stopped thread "breakpoint" none])
      ∧ (¬ (0 < d.currentline ∧ t.has_breakpoint = true
          ∧ env.breakpoint_has f d.currentline d (line_world env thread d s.w) = true) →
        (s.w.dbg.state_ = .stepping
          ∧ env.check_step d.L (line_world env thread d s.w) t = true) →
        stops (hook env thread d s).trace =
          stops s.trace ++ [.run_stopped thread s.w.dbg.stopReason_ none])
      ∧ (¬ (0 < d.currentline ∧ t.has_breakpoint = true
          ∧ env.breakpoint_has f d.currentline d (line_world env thread d s.w) = true) →
        ¬ (s.w.dbg.state_ = .stepping
          ∧ env.check_step d.L (line_world env thread d s.w) t = true) →
        stops (hook env thread d s).trace = stops s.trace))
    ∧ (t.cur_function = none → stops (hook env thread d s).trace = stops s.trace)
    ∧ (stops (hook env thread d s).trace).length ≤ (stops s.trace).length + 1 := by
  have hns : ¬ (s.w.dbg.state_ = .terminated ∨ s.w.dbg.state_ = .birth
      ∨ s.w.dbg.state_ = .initialized) := by
    rcases hstate with h | h <;> rw [h] <;> simp
  have hs : stops (hook env thread d s).trace =
      stops s.trace ++ line_stop env thread d s.w := by
    rw [hook_stops]
    unfold hook_stop
    rw [if_neg hns, hline]
  rw [hs]
  unfold line_stop
  simp only [ht]
  refine ⟨?_, ?_, ?_⟩
  · intro f hf
    simp only [hf]
    refine ⟨?_, ?_, ?_⟩
    · intro hb
      rw [if_pos hb]
    · intro hb hstep
      rw [if_neg hb, if_pos hstep]
    · intro hb hstep
      rw [if_neg hb, if_neg hstep, List.append_nil]
  · intro hf
    simp only [hf, List.append_nil]
  · cases hf : t.cur_function with
    | none => simp
    | some f =>
      simp only [List.length_append]
      split_ifs <;> simp

/-- C2, as stated, fails: the session is stepping, no breakpoint matches and
the step check succeeds, but `hook_line` leaves the thread without a current
function, and `hook` returns without a stop. -/
theorem line_event_without_function_no_stop :
    (sample_state .stepping [] sample_lua).w.dbg.state_ = .stepping
    ∧ sample_line.event = some .line
    ∧ (∀ f, (Env.sample none false false true).breakpoint_has f sample_line.currentline
        sample_line (line_world (Env.sample none false false true) 1 sample_line
          (sample_state .stepping [] sample_lua).w) = false)
    ∧ (∀ t, (Env.sample none false false true).check_step sample_line.L
        (line_world (Env.sample none false false true) 1 sample_line
          (sample_state .stepping [] sample_lua).w) t = true)
    ∧ (hook (Env.sample none false false true) 1 sample_line
        (sample_state .stepping [] sample_lua)).trace = [.hook_line 1] :=
  ⟨rfl, rfl, fun _ => rfl, fun _ => rfl, by decide⟩

/-- Witness for C2: a breakpoint on the current line of a stepping thread
whose step check succeeds as well; the stop is the breakpoint's. -/
theorem line_event_stop_rule_witness :
    ((sample_state .stepping [] sample_lua).w.dbg.state_ = .running
      ∨ (sample_state .stepping [] sample_lua).w.dbg.state_ = .stepping)
    ∧ sample_line.event = some .line
    ∧ stops (hook (Env.sample (some 0) true true true) 1 sample_line
        (sample_state .stepping [] sample_lua)).trace
        = stops (sample_state .stepping [] sample_lua).trace
          ++ [.run_stopped 1 "breakpoint" none] :=
  ⟨Or.inr rfl, rfl,
   ((line_event_stop_rule (Env.sample (some 0) true true true) 1 sample_line
      (sample_state .stepping [] sample_lua)
      { luathread.new 1 7 with busy := true, cur_function := some 0, has_breakpoint := true }
      (Or.inr rfl) rfl (by decide)).1 0 rfl).1 ⟨by decide, rfl, rfl⟩⟩

/-- C3 (amended). For an error-raised event processed by `hook` in state
running or stepping, and for a call of `exception(L, kind, level)` on a
registered thread: `run_stopped` is entered, with reason "exception", iff the
kind is in the enabled-exception set and the VM has an activation record at
level 0.  When that is not so nothing is emitted and nothing changes
(`exception` returns true all the same; `hook` leaves the busy flag of the
thread down, which is where it was unless the hook was re-entered). -/
theorem exception_stop_rule (env : Env) (s : State) (hnh : s.hung = false) :
    (∀ thread d, (s.w.dbg.state_ = .running ∨ s.w.dbg.state_ = .stepping) →
      d.event = some .exception →
      ((exception_kind (traceCall (s.w.vm d.L) 0).1 ∈ s.w.dbg.exception_
          ∧ (s.w.vm d.L).ci ≠ []) →
        stops (hook env thread d s).trace =
          stops s.trace ++ [.run_stopped thread "exception" (exception_text (s.w.vm d.L))])
      ∧ (¬ (exception_kind (traceCall (s.w.vm d.L) 0).1 ∈ s.w.dbg.exception_
          ∧ (s.w.vm d.L).ci ≠ []) →
        hook env thread d s = s.modify_thread thread fun t => { t with busy := false })
      ∧ (¬ (exception_kind (traceCall (s.w.vm d.L) 0).1 ∈ s.w.dbg.exception_
          ∧ (s.w.vm d.L).ci ≠ []) →
        (∀ e ∈ s.w.dbg.luathreads_, e.1 = thread → e.2.busy = false) →
        hook env thread d s = s))
    ∧ (∀ L kind level thread t, find_luathread s.w L = some (thread, t) →
      ((kind ∈ s.w.dbg.exception_ ∧ (s.w.vm L).ci ≠ []) →
        stops (exception env (some L) kind level s).2.trace =
          stops s.trace ++ [.run_stopped thread "exception" (exception_text (s.w.vm L))])
      ∧ (¬ (kind ∈ s.w.dbg.exception_ ∧ (s.w.vm L).ci ≠ []) →
        exception env (some L) kind level s = (true, s))) := by
  refine ⟨?_, ?_⟩
  · intro thread d hstate hev
    have hskip : ¬ (exception_kind (traceCall (s.w.vm d.L) 0).1 ∈ s.w.dbg.exception_
          ∧ (s.w.vm d.L).ci ≠ []) →
        hook env thread d s = s.modify_thread thread fun t => { t with busy := false } := by
      intro h
      apply hook_exception_skip env thread d s hnh hstate hev
      by_cases hm : exception_kind (traceCall (s.w.vm d.L) 0).1 ∈ s.w.dbg.exception_
      · right
        by_contra hc
        exact h ⟨hm, hc⟩
      · left
        exact hm
    refine ⟨?_, hskip, ?_⟩
    · intro h
      have hns : ¬ (s.w.dbg.state_ = .terminated ∨ s.w.dbg.state_ = .birth
          ∨ s.w.dbg.state_ = .initialized) := by
        rcases hstate with h | h <;> rw [h] <;> simp
      rw [hook_stops]
      unfold hook_stop
      rw [if_neg hns, hev]
      simp only [exception_stop, if_pos h]
    · intro h hbusy
      rw [hskip h]
      show ({ s with w := { s.w with dbg := { s.w.dbg with
        luathreads_ := map_modify s.w.dbg.luathreads_ thread _ } } } : State) = s
      rw [map_modify_id]
      intro e he hk
      have hb := hbusy e he hk
      cases ht : e.2
      rw [ht] at hb
      simp only at hb
      simp only [hb]
  · intro L kind level thread t hfind
    refine ⟨?_, ?_⟩
    · intro h
      unfold exception exception_at
      simp only [hfind]
      rw [exception_nolock_stops]
      simp only [exception_stop, if_pos h]
    · intro h
      unfold exception exception_at
      simp only [hfind]
      rw [exception_nolock_skip]
      by_cases hm : kind ∈ s.w.dbg.exception_
      · right
        by_contra hc
        exact h ⟨hm, hc⟩
      · left
        exact hm

/-- C3, as stated, fails: lua_pcall is enabled and `exception(L, lua_pcall,
0)` is called for the registered thread of a Lua state on which no function
is running; `lua_getstack(L, 0, &ar)` fails and nothing stops. -/
theorem enabled_exception_without_frame_no_stop :
    eException.lua_pcall ∈ (sample_state .running [.lua_pcall] sample_lua_idle).w.dbg.exception_
    ∧ (find_luathread (sample_state .running [.lua_pcall] sample_lua_idle).w 7).map
        (fun e => e.1) = some 1
    ∧ (exception (Env.sample none false false false) (some 7) .lua_pcall 0
        (sample_state .running [.lua_pcall] sample_lua_idle)).1 = true
    ∧ (exception (Env.sample none false false false) (some 7) .lua_pcall 0
        (sample_state .running [.lua_pcall] sample_lua_idle)).2.trace = []
    ∧ (exception (Env.sample none false false false) (some 7) .lua_pcall 0
        (sample_state .running [.lua_pcall] sample_lua_idle)).2.w.sent = [] := by
  decide

/-- Witness for C3: lua_pcall enabled, a script frame active; `exception`
stops with reason "exception". -/
theorem exception_stop_rule_witness :
    (sample_state .running [.lua_pcall] sample_lua).hung = false
    ∧ stops (exception (Env.sample none false false false) (some 7) .lua_pcall 0
        (sample_state .running [.lua_pcall] sample_lua)).2.trace
        = stops (sample_state .running [.lua_pcall] sample_lua).trace
          ++ [.run_stopped 1 "exception"
            (exception_text ((sample_state .running [.lua_pcall] sample_lua).w.vm 7))] :=
  ⟨rfl,
   ((exception_stop_rule (Env.sample none false false false)
      (sample_state .running [.lua_pcall] sample_lua) rfl).2 7 .lua_pcall 0 1
      (luathread.new 1 7) (by decide)).1 ⟨by decide, by decide⟩⟩

/-- C4 (amended). Whatever the session state, `panic(thread, L)` enters
`run_stopped`, with reason "exception", iff lua_panic is in the
enabled-exception set and the VM has an activation record at level 0;
otherwise it does nothing. -/
theorem panic_stop_rule (env : Env) (thread : Int) (L : Nat) (s : State) :
    ((eException.lua_panic ∈ s.w.dbg.exception_ ∧ (s.w.vm L).ci ≠ []) →
      stops (panic env thread L s).trace =
        stops s.trace ++ [.run_stopped thread "exception" (exception_text (s.w.vm L))])
    ∧ (¬ (eException.lua_panic ∈ s.w.dbg.exception_ ∧ (s.w.vm L).ci ≠ []) →
      panic env thread L s = s) := by
  unfold panic
  refine ⟨?_, ?_⟩
  · intro h
    rw [exception_nolock_stops]
    simp only [exception_stop, if_pos h]
  · intro h
    apply exception_nolock_skip
    by_cases hm : eException.lua_panic ∈ s.w.dbg.exception_
    · right
      by_contra hc
      exact h ⟨hm, hc⟩
    · left
      exact hm

/-- C4, as stated, fails: the session is running, a script frame is active,
the enabled-exception set holds only lua_pcall; `panic` does not stop. -/
theorem panic_not_enabled_no_stop :
    (sample_state .running [.lua_pcall] sample_lua).w.dbg.exception_ = [.lua_pcall]
    ∧ (find_luathread_id (sample_state .running [.lua_pcall] sample_lua).w 1).isSome = true
    ∧ ((sample_state .running [.lua_pcall] sample_lua).w.vm 7).ci ≠ []
    ∧ (panic (Env.sample none false false false) 1 7
        (sample_state .running [.lua_pcall] sample_lua)).trace = []
    ∧ (panic (Env.sample none false false false) 1 7
        (sample_state .running [.lua_pcall] sample_lua)).w.sent = [] := by
  decide

/-- Witness for C4: lua_panic enabled and a script frame active. -/
theorem panic_stop_rule_witness :
    stops (panic (Env.sample none false false false) 1 7
        (sample_state .birth [.lua_panic] sample_lua)).trace
      = stops (sample_state .birth [.lua_panic] sample_lua).trace
        ++ [.run_stopped 1 "exception"
          (exception_text ((sample_state .birth [.lua_panic] sample_lua).w.vm 7))] :=
  (panic_stop_rule (Env.sample none false false false) 1 7
    (sample_state .birth [.lua_panic] sample_lua)).1 ⟨by decide, by decide⟩

/-! ### Requests that are not accepted -/

theorem mentions_tail (a b c : String) : mentions (a ++ b ++ c) b := by
  unfold mentions
  simp only [String.data_append]
  exact ⟨a.data, c.data, rfl⟩

theorem run_idle_birth_other (env : Env) (s : State) (req : rprotocol)
    (rest : List (Option rprotocol)) (hin : s.inbox = some req :: rest)
    (hty : req.type = "request") (hb : (env.network_update s.w).dbg.state_ = .birth)
    (hc : req.command ≠ "initialize") :
    run_idle env s =
      response_error req (not_yet_implemented req.command ".(birth)")
        { s with w := env.network_update s.w, inbox := rest } := by
  unfold run_idle io_input
  simp only [(is_state_iff _ _).mpr hb, if_true, hin, hty, ne_eq, not_true_eq_false,
    if_false, hc]

theorem run_idle_birth_init (env : Env) (s : State) (req : rprotocol)
    (rest : List (Option rprotocol)) (hin : s.inbox = some req :: rest)
    (hty : req.type = "request") (hb : (env.network_update s.w).dbg.state_ = .birth)
    (hc : req.command = "initialize") :
    run_idle env s =
      { s with w := env.request_init req (env.network_update s.w), inbox := rest,
               trace := s.trace ++ [.request_init req] } := by
  unfold run_idle io_input
  simp only [(is_state_iff _ _).mpr hb, if_true, hin, hty, ne_eq, not_true_eq_false,
    if_false, hc]

theorem run_idle_idle_other (env : Env) (s : State) (req : rprotocol)
    (rest : List (Option rprotocol)) (hin : s.inbox = some req :: rest)
    (hty : req.type = "request")
    (hst : (env.network_update s.w).dbg.state_ = .initialized
      ∨ (env.network_update s.w).dbg.state_ = .running
      ∨ (env.network_update s.w).dbg.state_ = .stepping)
    (hc : dispatch_find main_dispatch_ req.command = none) :
    run_idle env s =
      response_error req (not_yet_implemented req.command ".(idle)")
        { s with w := env.network_update s.w, inbox := rest } := by
  unfold run_idle io_input
  have h1 : ¬ ((env.network_update s.w).dbg.is_state .birth = true) := by
    rw [is_state_iff]
    rcases hst with h | h | h <;> rw [h] <;> simp
  have h2 : ((env.network_update s.w).dbg.is_state .initialized
      || (env.network_update s.w).dbg.is_state .running
      || (env.network_update s.w).dbg.is_state .stepping) = true := by
    simp only [Bool.or_eq_true, is_state_iff]
    tauto
  simp only [h1, if_false, h2, if_true, hin, hty, ne_eq, not_true_eq_false, update_main, hc,
    Bool.false_eq_true]

theorem stopped_loop_other (env : Env) (d : debug) (s : State) (req : rprotocol)
    (rest : List (Option rprotocol)) (hty : req.type = "request")
    (hc : ((env.network_update s.w).dbg.state_ = .birth ∧ req.command ≠ "initialize")
      ∨ ((env.network_update s.w).dbg.state_ ≠ .birth
          ∧ dispatch_find main_dispatch_ req.command = none
          ∧ dispatch_find hook_dispatch_ req.command = none)) :
    stopped_loop env d (some req :: rest) s =
      stopped_loop env d rest
        (response_error req (not_yet_implemented req.command ",(stopped)")
          { s with w := env.network_update s.w, inbox := rest }) := by
  rcases hc with ⟨hb, hc⟩ | ⟨hb, hm, hh⟩
  · simp only [stopped_loop, hty, ne_eq, not_true_eq_false, if_false,
      (is_state_iff _ _).mpr hb, if_true, hc]
  · have h1 : ¬ ((env.network_update s.w).dbg.is_state .birth = true) := by
      rw [is_state_iff]
      exact hb
    simp only [stopped_loop, hty, ne_eq, not_true_eq_false, if_false, h1, update_main, hm,
      update_hook, hh, Bool.false_eq_true]

theorem not_yet_implemented_birth (c : String) :
    not_yet_implemented c ".(birth)" = "`" ++ c ++ "` not yet implemented.(birth)" := by
  unfold not_yet_implemented
  rw [String.append_assoc ("`" ++ c)]
  rfl

theorem not_yet_implemented_idle (c : String) :
    not_yet_implemented c ".(idle)" = "`" ++ c ++ "` not yet implemented.(idle)" := by
  unfold not_yet_implemented
  rw [String.append_assoc ("`" ++ c)]
  rfl

theorem not_yet_implemented_stopped (c : String) :
    not_yet_implemented c ",(stopped)" = "`" ++ c ++ "` not yet implemented,(stopped)" := by
  unfold not_yet_implemented
  rw [String.append_assoc ("`" ++ c)]
  rfl

/-- C5 (amended). A request whose command is not accepted where it is read
(by `run_idle` in birth: anything but initialize; by `run_idle` in
initialized, running or stepping: anything outside the main table, which
includes every command of the hook table; in the stopped loop: anything
outside both tables, and in state birth anything but initialize) invokes no
handler and is answered by one error response; the state is the one the
request was read in.  The message is the command in backticks followed by
" not yet implemented.(birth)", " not yet implemented.(idle)" or
" not yet implemented,(stopped)": it names the place of dispatch, not the state. -/
theorem unaccepted_command_error (env : Env) (s : State) (req : rprotocol)
    (rest : List (Option rprotocol)) (hin : s.inbox = some req :: rest)
    (hty : req.type = "request") :
    ((env.network_update s.w).dbg.state_ = .birth → req.command ≠ "initialize" →
      run_idle env s =
        response_error req ("`" ++ req.command ++ "` not yet implemented.(birth)")
          { s with w := env.network_update s.w, inbox := rest })
    ∧ (((env.network_update s.w).dbg.state_ = .initialized
          ∨ (env.network_update s.w).dbg.state_ = .running
          ∨ (env.network_update s.w).dbg.state_ = .stepping) →
        dispatch_find main_dispatch_ req.command = none →
      run_idle env s =
        response_error req ("`" ++ req.command ++ "` not yet implemented.(idle)")
          { s with w := env.network_update s.w, inbox := rest })
    ∧ (∀ d, (((env.network_update s.w).dbg.state_ = .birth ∧ req.command ≠ "initialize")
          ∨ ((env.network_update s.w).dbg.state_ ≠ .birth
              ∧ dispatch_find main_dispatch_ req.command = none
              ∧ dispatch_find hook_dispatch_ req.command = none)) →
      stopped_loop env d s.inbox s =
        stopped_loop env d rest
          (response_error req ("`" ++ req.command ++ "` not yet implemented,(stopped)")
            { s with w := env.network_update s.w, inbox := rest }))
    ∧ (∀ msg,
        (response_error req msg { s with w := env.network_update s.w, inbox := rest }).trace
          = s.trace ++ [.response_error req msg]
        ∧ (response_error req msg
              { s with w := env.network_update s.w, inbox := rest }).w.dbg.state_
            = (env.network_update s.w).dbg.state_
        ∧ (response_error req msg { s with w := env.network_update s.w, inbox := rest }).w.sent
          = (env.network_update s.w).sent
            ++ [.error_response (env.network_update s.w).dbg.seq req.seq req.command msg])
    ∧ (∀ c ∈ hook_dispatch_.map Prod.fst, dispatch_find main_dispatch_ c = none) := by
  refine ⟨?_, ?_, ?_, ?_, ?_⟩
  · intro hb hc
    rw [← not_yet_implemented_birth]
    exact run_idle_birth_other env s req rest hin hty hb hc
  · intro hst hc
    rw [← not_yet_implemented_idle]
    exact run_idle_idle_other env s req rest hin hty hst hc
  · intro d hc
    rw [← not_yet_implemented_stopped, hin]
    exact stopped_loop_other env d s req rest hty hc
  · intro msg
    exact ⟨rfl, rfl, rfl⟩
  · decide

/-- C5, as stated, fails: in state running `run_idle` reads the request
`continue`, which the main table does not hold; the error message is
"`continue` not yet implemented.(idle)" and does not contain "running". -/
theorem idle_error_does_not_name_state :
    (sample_state .running [] sample_lua).w.dbg.state_ = .running
    ∧ (run_idle (Env.sample none false false false)
        (sample_state .running [] sample_lua)).w.sent
        = [.error_response 1 1 "continue" "`continue` not yet implemented.(idle)"]
    ∧ ¬ mentions "`continue` not yet implemented.(idle)" eState.running.name := by
  refine ⟨rfl, by decide, ?_⟩
  unfold mentions
  decide

/-- Witness for C5: the request `continue` read by `run_idle` in state running. -/
theorem unaccepted_command_error_witness :
    (sample_state .running [] sample_lua).inbox = [some sample_continue]
    ∧ sample_continue.type = "request"
    ∧ run_idle (Env.sample none false false false) (sample_state .running [] sample_lua)
      = response_error sample_continue
          ("`" ++ sample_continue.command ++ "` not yet implemented.(idle)")
          { sample_state .running [] sample_lua with
            w := (Env.sample none false false false).network_update
              (sample_state .running [] sample_lua).w
            inbox := [] } :=
  ⟨rfl, rfl,
   (unaccepted_command_error (Env.sample none false false false)
      (sample_state .running [] sample_lua) sample_continue [] rfl rfl).2.1
      (Or.inr (Or.inl rfl)) (by decide)⟩

/-- C6. While the state is birth, `run_idle` accepts initialize only: a
request with another command invokes no handler, leaves the state birth and
is answered by the error "`<command>` not yet implemented.(birth)", a text
that says "not yet implemented" and "(birth)"; a request `initialize` goes to
`request_initialize` and produces no error response.  The stopped loop, too,
accepts initialize only while the state is birth. -/
theorem birth_accepts_initialize_only (env : Env) (s : State) (req : rprotocol)
    (rest : List (Option rprotocol)) (hin : s.inbox = some req :: rest)
    (hty : req.type = "request") (hb : (env.network_update s.w).dbg.state_ = .birth) :
    (req.command ≠ "initialize" →
      (run_idle env s).trace = s.trace
          ++ [.response_error req ("`" ++ req.command ++ "` not yet implemented.(birth)")]
      ∧ (run_idle env s).w.dbg.state_ = .birth
      ∧ (run_idle env s).w.sent = (env.network_update s.w).sent
          ++ [.error_response (env.network_update s.w).dbg.seq req.seq req.command
                ("`" ++ req.command ++ "` not yet implemented.(birth)")]
      ∧ mentions ("`" ++ req.command ++ "` not yet implemented.(birth)") "not yet implemented"
      ∧ mentions ("`" ++ req.command ++ "` not yet implemented.(birth)") "(birth)")
    ∧ (req.command = "initialize" →
      run_idle env s =
        { s with w := env.request_init req (env.network_update s.w), inbox := rest,
                 trace := s.trace ++ [.request_init req] })
    ∧ (∀ d, req.command ≠ "initialize" →
      stopped_loop env d s.inbox s =
        stopped_loop env d rest
          (response_error req ("`" ++ req.command ++ "` not yet implemented,(stopped)")
            { s with w := env.network_update s.w, inbox := rest }))
    ∧ (∀ d, req.command = "initialize" →
      stopped_loop env d s.inbox s =
        stopped_loop env d rest
          { s with w := env.request_init req (env.network_update s.w), inbox := rest,
                   trace := s.trace ++ [.request_init req] }) := by
  refine ⟨?_, ?_, ?_, ?_⟩
  rotate_left 2
  · intro d hc
    rw [← not_yet_implemented_stopped, hin]
    exact stopped_loop_other env d s req rest hty (Or.inl ⟨hb, hc⟩)
  · intro d hc
    rw [hin]
    simp only [stopped_loop, hty, ne_eq, not_true_eq_false, if_false,
      (is_state_iff _ _).mpr hb, if_true, hc]
  · intro hc
    rw [run_idle_birth_other env s req rest hin hty hb hc, not_yet_implemented_birth]
    refine ⟨rfl, hb, rfl, ?_, ?_⟩
    · have h := mentions_tail ("`" ++ req.command ++ "` ") "not yet implemented" ".(birth)"
      have e : "`" ++ req.command ++ "` " ++ "not yet implemented" ++ ".(birth)"
          = "`" ++ req.command ++ "` not yet implemented.(birth)" := by
        rw [String.append_assoc, String.append_assoc ("`" ++ req.command)]
        rfl
      rw [e] at h
      exact h
    · have h := mentions_tail ("`" ++ req.command ++ "` not yet implemented.") "(birth)" ""
      have e : "`" ++ req.command ++ "` not yet implemented." ++ "(birth)" ++ ""
          = "`" ++ req.command ++ "` not yet implemented.(birth)" := by
        rw [String.append_assoc, String.append_assoc ("`" ++ req.command)]
        rfl
      rw [e] at h
      exact h
  · intro hc
    exact run_idle_birth_init env s req rest hin hty hb hc

/-- Witness for C6: the request `continue` read in state birth. -/
theorem birth_accepts_initialize_only_witness :
    (sample_state .birth [] sample_lua).inbox = [some sample_continue]
    ∧ sample_continue.type = "request"
    ∧ ((Env.sample none false false false).network_update
        (sample_state .birth [] sample_lua).w).dbg.state_ = .birth
    ∧ (run_idle (Env.sample none false false false)
        (sample_state .birth [] sample_lua)).w.dbg.state_ = .birth :=
  ⟨rfl, rfl, rfl,
   ((birth_accepts_initialize_only (Env.sample none false false false)
      (sample_state .birth [] sample_lua) sample_continue [] rfl rfl rfl).1
      (by decide)).2.1⟩

/-! ### Sequence numbers of output events -/

theorem output_silent (env : Env) (category buf : String) (L : Option Nat)
    (ar : Option CallInfo) (w : World)
    (h : w.dbg.state_ = .birth ∨ w.dbg.state_ = .initialized ∨ w.dbg.state_ = .terminated
      ∨ w.dbg.consoleSourceCoding_ = .none) :
    output env category buf L ar w = w := by
  unfold output
  by_cases h1 : (w.dbg.is_state .terminated || w.dbg.is_state .birth
      || w.dbg.is_state .initialized) = true
  · rw [if_pos h1]
  · rw [if_neg h1]
    have h2 : w.dbg.consoleSourceCoding_ = .none := by
      simp only [Bool.or_eq_true, is_state_iff] at h1
      tauto
    rw [if_pos h2]

theorem output_cases (env : Env) (category buf : String) (L : Option Nat)
    (ar : Option CallInfo) (w : World) :
    output env category buf L ar w = w
    ∨ ∃ m, m.seq_of = w.dbg.seq ∧ m.is_output = true
        ∧ output env category buf L ar w =
          { w with dbg := { w.dbg with seq := w.dbg.seq + 1 }, sent := w.sent ++ [m] } := by
  by_cases h : w.dbg.state_ = .birth ∨ w.dbg.state_ = .initialized ∨ w.dbg.state_ = .terminated
      ∨ w.dbg.consoleSourceCoding_ = .none
  · exact Or.inl (output_silent env category buf L ar w h)
  · have h1 : ¬ (w.dbg.is_state .terminated || w.dbg.is_state .birth
        || w.dbg.is_state .initialized) = true := by
      simp only [Bool.or_eq_true, is_state_iff]
      tauto
    have h2 : ¬ w.dbg.consoleSourceCoding_ = .none := by tauto
    unfold output
    rw [if_neg h1, if_neg h2]
    refine Or.inr ⟨_, ?_, ?_, rfl⟩ <;> rfl

theorem output_op_cases (env : Env) (op : OutputOp) (w : World) :
    ((op.apply env w).sent = w.sent ∧ (op.apply env w).dbg.seq = w.dbg.seq)
    ∨ ∃ m, m.seq_of = w.dbg.seq ∧ m.is_output = true
        ∧ (op.apply env w).sent = w.sent ++ [m]
        ∧ (op.apply env w).dbg.seq = w.dbg.seq + 1 := by
  cases op with
  | set_state st => exact Or.inl ⟨rfl, rfl⟩
  | set_coding a b => exact Or.inl ⟨rfl, rfl⟩
  | output category buf L ar =>
    rcases output_cases env category buf L ar w with h | ⟨m, h1, h2, h3⟩
    · left
      show (output env category buf L ar w).sent = _ ∧ (output env category buf L ar w).dbg.seq = _
      rw [h]
      exact ⟨rfl, rfl⟩
    · right
      refine ⟨m, h1, h2, ?_, ?_⟩
      · show (output env category buf L ar w).sent = _
        rw [h3]
      · show (output env category buf L ar w).dbg.seq = _
        rw [h3]

/-- From a session whose counter is `n`, a run sends messages numbered
`n, n + 1, ...`, all of them output events, and leaves the counter at `n`
plus their number. -/
theorem run_output_from (env : Env) (ops : List OutputOp) (w : World) :
    ∃ new, (run_output env ops w).sent = w.sent ++ new
      ∧ new.map wprotocol.seq_of
          = (List.range new.length).map (fun (i : Nat) => w.dbg.seq + (i : Int))
      ∧ (∀ m ∈ new, m.is_output = true)
      ∧ (run_output env ops w).dbg.seq = w.dbg.seq + (new.length : Int)
      ∧ new.length ≤ ops.length := by
  induction ops generalizing w with
  | nil => exact ⟨[], by simp [run_output], rfl, by simp, by simp [run_output], le_refl _⟩
  | cons op rest ih =>
    obtain ⟨new, h1, h2, h3, h4, h5⟩ := ih (op.apply env w)
    rcases output_op_cases env op w with ⟨hs, hq⟩ | ⟨m, hm1, hm2, hs, hq⟩
    · refine ⟨new, ?_, ?_, h3, ?_, ?_⟩
      · simp only [run_output]
        rw [h1, hs]
      · rw [h2, hq]
      · simp only [run_output]
        rw [h4, hq]
      · simp only [List.length_cons]
        omega
    · refine ⟨m :: new, ?_, ?_, ?_, ?_, ?_⟩
      rotate_right 1
      · simp only [List.length_cons]
        omega
      · simp only [run_output]
        rw [h1, hs, List.append_assoc]
        rfl
      · rw [List.map_cons, List.length_cons, List.range_succ_eq_map, List.map_cons,
          List.map_map, h2, hq, hm1]
        congr 1
        · simp
        · apply List.map_congr_left
          intro i _
          simp only [Function.comp, Nat.succ_eq_add_one, Nat.cast_add, Nat.cast_one]
          omega
      · intro x hx
        rcases List.mem_cons.mp hx with hx | hx
        · rw [hx]
          exact hm2
        · exact h3 x hx
      · simp only [run_output]
        rw [h4, hq, List.length_cons]
        push_cast
        omega

/-- C8. From a freshly constructed session, whatever happens to state and
codings between the calls, the messages sent by `output` calls are output
events numbered 1, 2, 3, ... in issue order: strictly increasing, pairwise
distinct, the first one 1.  The counter ends one above the number of events
sent (at most the number of calls), never decreases along a run, and a call
that emits nothing (state birth, initialized or terminated, or source coding
none) changes nothing. -/
theorem output_seq_strictly_increasing (env : Env) (self_addr managers : Nat)
    (vm : Nat → lua_State) (ops : List OutputOp) :
    let w := run_output env ops (World.fresh self_addr managers vm)
    w.sent.map wprotocol.seq_of
        = (List.range w.sent.length).map (fun (i : Nat) => (i : Int) + 1)
      ∧ (∀ m ∈ w.sent, m.is_output = true)
      ∧ (w.sent.map wprotocol.seq_of).Pairwise (· < ·)
      ∧ (w.sent.map wprotocol.seq_of).Nodup
      ∧ (w.sent ≠ [] → (w.sent.map wprotocol.seq_of).head? = some 1)
      ∧ w.dbg.seq = 1 + (w.sent.length : Int)
      ∧ w.sent.length ≤ ops.length
      ∧ (∀ ops1 w1, w1.dbg.seq ≤ (run_output env ops1 w1).dbg.seq)
      ∧ (∀ category buf L ar w1,
          (w1.dbg.state_ = .birth ∨ w1.dbg.state_ = .initialized
            ∨ w1.dbg.state_ = .terminated ∨ w1.dbg.consoleSourceCoding_ = .none) →
          output env category buf L ar w1 = w1) := by
  intro w
  obtain ⟨new, h1, h2, h3, h4, h5⟩ :=
    run_output_from env ops (World.fresh self_addr managers vm)
  have hsent : w.sent = new := by
    show (run_output env ops (World.fresh self_addr managers vm)).sent = new
    rw [h1]
    rfl
  have hseq : (World.fresh self_addr managers vm).dbg.seq = 1 := rfl
  have hmap : w.sent.map wprotocol.seq_of
      = (List.range w.sent.length).map (fun (i : Nat) => (i : Int) + 1) := by
    rw [hsent, h2, hseq]
    apply List.map_congr_left
    intro i _
    omega
  have hpw : (w.sent.map wprotocol.seq_of).Pairwise (· < ·) := by
    rw [hmap, List.pairwise_map]
    refine (List.pairwise_lt_range _).imp ?_
    intro a b hab
    omega
  refine ⟨hmap, ?_, hpw, ?_, ?_, ?_, hsent ▸ h5, ?_, ?_⟩
  · rw [hsent]
    exact h3
  · exact hpw.imp (fun h => ne_of_lt h)
  · intro hne
    rw [hmap]
    cases hl : w.sent.length with
    | zero => exact absurd (List.length_eq_zero.mp hl) hne
    | succ n => simp [List.range_succ_eq_map]
  · show (run_output env ops (World.fresh self_addr managers vm)).dbg.seq = _
    rw [h4, hseq, hsent]
  · intro ops1 w1
    obtain ⟨new1, _, _, _, h, _⟩ := run_output_from env ops1 w1
    rw [h]
    omega
  · intro category buf L ar w1 h
    exact output_silent env category buf L ar w1 h

/-! ### Redirection of `print` -/

theorem open_redirect_vm (L : Nat) (w : World) :
    (open_redirect .print (some L) w).vm L =
      { w.vm L with
        globals := Function.update (w.vm L).globals "print"
          (.function (w.vm L).closures.length)
        closures := (w.vm L).closures ++
          [{ fn := some .redirect_print,
             upvalues := [.lightuserdata w.dbg.self_addr, (w.vm L).globals "print"] }] } := by
  simp [open_redirect, World.modify_vm, lua_setglobal, lua_pushcclosure, lua_getglobal,
    lua_pushlightuserdata, lua_push]

theorem close_after_open_vm (L : Nat) (w : World) :
    (close_redirect (open_redirect .print (some L) w)).vm L =
      { w.vm L with
        closures := (w.vm L).closures ++
          [{ fn := some .redirect_print,
             upvalues := [.lightuserdata w.dbg.self_addr, (w.vm L).globals "print"] }] } := by
  have h1 : (open_redirect .print (some L) w).dbg.redirectL_ = some L := rfl
  unfold close_redirect
  simp only [h1]
  simp only [World.modify_vm, Function.update_same]
  rw [open_redirect_vm]
  simp [lua_getglobal, lua_push, LuaValue.isFunction, lua_getupvalue_top, lua_setglobal,
    lua_pop, List.getElem?_append_right]

/-- C9. Round trip of the print redirection on a Lua state whose function
values in the globals are allocated closures: `open_redirect(print, L)`
installs a fresh `redirect_print` closure with upvalues (session pointer,
old print) as global `print` and remembers `L`; `close_redirect()` then
restores every global, so `print` is the old value (function, nil or
anything else) and no global holds the closure, leaves the stack as it was,
forgets `L`, touches no other Lua state, and a second `close_redirect()`
changes nothing. -/
theorem print_redirect_round_trip (w : World) (L : Nat)
    (hwf : ∀ name a, (w.vm L).globals name = .function a → a < (w.vm L).closures.length) :
    let w1 := open_redirect .print (some L) w
    let w2 := close_redirect w1
    (w1.vm L).globals "print" = .function (w.vm L).closures.length
    ∧ (w1.vm L).closures.get? (w.vm L).closures.length =
        some { fn := some .redirect_print,
               upvalues := [.lightuserdata w.dbg.self_addr, (w.vm L).globals "print"] }
    ∧ w1.dbg.redirectL_ = some L
    ∧ (w2.vm L).globals = (w.vm L).globals
    ∧ (w2.vm L).globals "print" = (w.vm L).globals "print"
    ∧ (∀ name, (w2.vm L).globals name ≠ .function (w.vm L).closures.length)
    ∧ (w2.vm L).stack = (w.vm L).stack
    ∧ lua_gettop (w2.vm L) = lua_gettop (w.vm L)
    ∧ w2.dbg.redirectL_ = none
    ∧ close_redirect w2 = w2
    ∧ (∀ L1, L1 ≠ L → w2.vm L1 = w.vm L1) := by
  intro w1 w2
  have h2 : w2.vm L = _ := close_after_open_vm L w
  have h1 : w1.vm L = _ := open_redirect_vm L w
  have hr : w2.dbg.redirectL_ = none := rfl
  refine ⟨?_, ?_, rfl, ?_, ?_, ?_, ?_, ?_, hr, ?_, ?_⟩
  · rw [h1]
    simp
  · rw [h1]
    simp [List.getElem?_append_right]
  · rw [h2]
  · rw [h2]
  · intro name hname
    rw [h2] at hname
    exact absurd (hwf name _ hname) (lt_irrefl _)
  · rw [h2]
  · unfold lua_gettop
    rw [h2]
  · unfold close_redirect
    rw [hr]
  · intro L1 hne
    show Function.update (Function.update w.vm L _) L _ L1 = w.vm L1
    rw [Function.update_noteq hne, Function.update_noteq hne]

theorem sample_lua_print_allocated (name : String) (a : Nat)
    (h : ((sample_world .running [] sample_lua_print).vm 7).globals name = .function a) :
    a < ((sample_world .running [] sample_lua_print).vm 7).closures.length := by
  have h0 : (if name = "print" then LuaValue.function 0 else LuaValue.nil)
      = LuaValue.function a := h
  show a < 1
  by_cases hn : name = "print"
  · rw [if_pos hn] at h0
    injection h0 with h0
    omega
  · rw [if_neg hn] at h0
    cases h0

/-- Witness for C9: a Lua state whose global `print` is a script function. -/
theorem print_redirect_round_trip_witness :
    (∀ name a, ((sample_world .running [] sample_lua_print).vm 7).globals name = .function a →
        a < ((sample_world .running [] sample_lua_print).vm 7).closures.length)
    ∧ ((close_redirect (open_redirect .print (some 7)
          (sample_world .running [] sample_lua_print))).vm 7).globals "print"
        = ((sample_world .running [] sample_lua_print).vm 7).globals "print" :=
  ⟨sample_lua_print_allocated,
   (print_redirect_round_trip (sample_world .running [] sample_lua_print) 7
      sample_lua_print_allocated).2.2.2.2.1⟩

/-! ### The server transport -/

theorem sock_ok_apply (e : SockEvent) (sv : sock_server) (hok : sock_ok sv) :
    sock_ok (e.apply sv) := by
  cases e with
  | accept fd ep =>
    show sock_ok (event_accept fd ep sv)
    unfold event_accept
    cases h : sv.session_ with
    | some s0 =>
      refine ⟨?_, hok.cleared⟩
      intro s hs
      exact hok.bound s (h ▸ hs)
    | none =>
      refine ⟨?_, hok.cleared⟩
      intro s hs
      simp only [Option.some.injEq] at hs
      subst hs
      exact ⟨rfl, rfl⟩
  | close_session =>
    show sock_ok (close_session sv)
    unfold close_session
    cases h : sv.session_ with
    | none => exact hok
    | some s0 =>
      refine ⟨?_, ?_⟩
      · intro s hs
        cases hs
      · intro s hs
        rcases List.mem_append.mp hs with hs | hs
        · exact hok.cleared s hs
        · simp only [List.mem_singleton] at hs
          subst hs
          rfl
  | socket_close =>
    show sock_ok (socket_s_close sv)
    unfold socket_s_close close_session
    cases h : sv.session_ with
    | none =>
      simp only [h]
      refine ⟨?_, hok.cleared⟩
      intro s hs
      cases hs
    | some s0 =>
      simp only [h]
      refine ⟨?_, ?_⟩
      · intro s hs
        cases hs
      · intro s hs
        rcases List.mem_append.mp hs with hs | hs
        · exact hok.cleared s hs
        · simp only [List.mem_singleton] at hs
          subst hs
          rfl
  | listener_close =>
    refine ⟨?_, hok.cleared⟩
    intro s hs
    cases hs
  | update =>
    refine ⟨hok.bound, ?_⟩
    intro s hs
    exact hok.cleared s (List.mem_of_mem_filter hs)
  | retire i =>
    refine ⟨hok.bound, ?_⟩
    intro s hs
    have hs1 : s ∈ sv.clearlist_.modify (fun s => { s with retired := true }) i := hs
    rw [List.mem_iff_getElem] at hs1
    obtain ⟨n, hn, hget⟩ := hs1
    rw [List.getElem_modify] at hget
    rw [List.length_modify] at hn
    have hc := hok.cleared _ (List.getElem_mem hn)
    split_ifs at hget <;> rw [← hget] <;> exact hc

theorem sock_ok_run (events : List SockEvent) (sv : sock_server) (hok : sock_ok sv) :
    sock_ok (run_sock events sv) := by
  induction events generalizing sv with
  | nil => exact hok
  | cons e rest ih => exact ih _ (sock_ok_apply e sv hok)

theorem sock_ok_new : sock_ok sock_server.new := by
  refine ⟨?_, ?_⟩
  · intro s hs
    cases hs
  · intro s hs
    cases hs

/-- C10. After any sequence of accept and close events on a new server: of
the session objects the server owns, at most one has not been closed, and
it is `session_`, to which the stream is bound.  An accept that finds a
session active closes the new fd and changes nothing else; an accept that
finds none (as at the start, or after `close_session`) makes the new
connection the session and opens the stream on it. -/
theorem server_holds_at_most_one_session (events : List SockEvent) :
    let sv := run_sock events sock_server.new
    (sv.owned.filter (fun s => !s.closed)) = sv.session_.toList
    ∧ (sv.owned.filter (fun s => !s.closed)).length ≤ 1
    ∧ (∀ s, sv.session_ = some s → sv.stream_s = some s.addr)
    ∧ (∀ fd ep, sv.session_.isSome = true →
        event_accept fd ep sv = { sv with closed_fds := sv.closed_fds ++ [fd] })
    ∧ (∀ fd ep, sv.session_ = none →
        event_accept fd ep sv =
          { sv with
            session_ := some { addr := sv.next_addr, fd := fd, ep := ep, closed := false,
                               retired := false }
            stream_s := some sv.next_addr
            next_addr := sv.next_addr + 1 })
    ∧ sock_server.new.session_ = none
    ∧ (close_session sv).session_ = none := by
  intro sv
  have hok : sock_ok sv := sock_ok_run events _ sock_ok_new
  have hfilter : sv.owned.filter (fun s => !s.closed) = sv.session_.toList := by
    unfold sock_server.owned
    rw [List.filter_append]
    have h1 : sv.clearlist_.filter (fun s => !s.closed) = [] := by
      rw [List.filter_eq_nil_iff]
      intro s hs
      simp [hok.cleared s hs]
    rw [h1, List.append_nil]
    cases h : sv.session_ with
    | none => rfl
    | some s => simp [(hok.bound s h).2]
  refine ⟨hfilter, ?_, ?_, ?_, ?_, rfl, ?_⟩
  · rw [hfilter]
    cases sv.session_ <;> simp
  · intro s hs
    exact (hok.bound s hs).1
  · intro fd ep h
    unfold event_accept
    cases hs : sv.session_ with
    | none => rw [hs] at h; cases h
    | some s => rfl
  · intro fd ep h
    unfold event_accept
    rw [h]
  · unfold close_session
    cases hs : sv.session_ <;> simp [hs]

/-! ### Error classification -/

theorem traceCall_loop_fst (frames : List CallInfo) (L : lua_State) (x p : LuaValue)
    (st : List LuaValue) (h : L.stack = x :: p :: st) :
    (traceCall_loop frames L).1 =
      match frames.find? (fun ar => decide (p = .function ar.func ∨ x = .function ar.func)) with
      | none => .none
      | some ar => if p = .function ar.func then .pcall else .xpcall := by
  induction frames with
  | nil => rfl
  | cons ar rest ih =>
    have h2 : lua_rawequal (lua_push (.function ar.func) L) 2 0
        = decide (p = .function ar.func) := by
      simp [lua_rawequal, lua_index, lua_push, h]
    have h1 : lua_rawequal (lua_push (.function ar.func) L) 1 0
        = decide (x = .function ar.func) := by
      simp [lua_rawequal, lua_index, lua_push, h]
    have hpop : lua_pop 1 (lua_push (.function ar.func) L) = L := by
      simp [lua_pop, lua_push]
    simp only [traceCall_loop, h1, h2, hpop, List.find?_cons]
    by_cases hp : p = .function ar.func
    · simp [hp]
    · by_cases hx : x = .function ar.func
      · simp [hp, hx]
      · simp only [hp, hx, decide_False, or_self, Bool.false_eq_true, if_false]
        exact ih

theorem function_or_nil_eq (v : LuaValue) (a : Nat) :
    ((if v.isFunction then v else .nil) = .function a) ↔ v = .function a := by
  cases v <;> simp [LuaValue.isFunction]

theorem traceCall_fst (L : lua_State) (level : Nat) :
    (traceCall L level).1 = classify L level := by
  have hp : (if (lua_getglobal "pcall" L).1.isFunction then (lua_getglobal "pcall" L).2
      else lua_pushnil (lua_pop 1 (lua_getglobal "pcall" L).2))
      = lua_push (if (L.globals "pcall").isFunction then L.globals "pcall" else .nil) L := by
    by_cases h : (L.globals "pcall").isFunction = true
    · simp [lua_getglobal, h]
    · simp [lua_getglobal, h, lua_pushnil, lua_pop, lua_push]
  have hx : ∀ M : lua_State, M.globals = L.globals →
      (if (lua_getglobal "xpcall" M).1.isFunction then (lua_getglobal "xpcall" M).2
        else lua_pushnil (lua_pop 1 (lua_getglobal "xpcall" M).2))
      = lua_push (if (L.globals "xpcall").isFunction then L.globals "xpcall" else .nil) M := by
    intro M hM
    by_cases h : (L.globals "xpcall").isFunction = true
    · simp [lua_getglobal, h, hM]
    · simp [lua_getglobal, h, hM, lua_pushnil, lua_pop, lua_push]
  unfold traceCall
  simp only
  rw [hp, hx (lua_push (if (L.globals "pcall").isFunction then L.globals "pcall" else .nil) L)
    rfl]
  rw [traceCall_loop_fst _ _ _ _ L.stack rfl]
  unfold classify first_handler
  simp only [function_or_nil_eq, lua_push]

theorem hook_body_exception (env : Env) (thread : Int) (d : debug) (s : State)
    (hstate : s.w.dbg.state_ = .running ∨ s.w.dbg.state_ = .stepping)
    (hev : d.event = some .exception) :
    hook_body env thread d s =
      exception_nolock env thread d.L (exception_kind (traceCall (s.w.vm d.L) 0).1) 0 s := by
  have h0 : ¬ (s.w.dbg.is_state .terminated || s.w.dbg.is_state .birth
      || s.w.dbg.is_state .initialized) = true := by
    simp only [Bool.or_eq_true, is_state_iff]
    rcases hstate with h | h <;> rw [h] <;> simp
  have h1 : ¬ (d.event = some .call ∨ d.event = some .tailcall ∨ d.event = some .ret) := by
    rw [hev]
    simp
  have hvm : Function.update s.w.vm d.L (traceCall (s.w.vm d.L) 0).2 = s.w.vm := by
    rw [traceCall_snd]
    exact Function.update_eq_self _ _
  unfold hook_body
  rw [if_neg h0, if_neg h1, if_pos hev]
  simp only
  rw [hvm]
  cases hc : (traceCall (s.w.vm d.L) 0).1 <;> rfl

/-- C11. The result of `traceCall(L, level)` is decided by the first
activation record, from `level` outwards, whose function is the global
`pcall` or the global `xpcall`: pcall if it is `pcall`, otherwise xpcall (it
is then `xpcall`), none if there is no such record, in particular when
neither global is a function.  `traceCall` returns the Lua state, and so the
stack height, as it found it, on every path.  On an error event in state
running or stepping `hook` hands the kind pcall, xpcall or lua_pcall,
respectively, to `exception_nolock`. -/
theorem traceCall_classifies_by_first_handler (L : lua_State) (level : Nat) :
    (traceCall L level).1 = classify L level
    ∧ (first_handler L level = none → (traceCall L level).1 = .none)
    ∧ (∀ ar, first_handler L level = some ar → L.globals "pcall" = .function ar.func →
        (traceCall L level).1 = .pcall)
    ∧ (∀ ar, first_handler L level = some ar → L.globals "pcall" ≠ .function ar.func →
        L.globals "xpcall" = .function ar.func ∧ (traceCall L level).1 = .xpcall)
    ∧ ((L.globals "pcall").isFunction = false → (L.globals "xpcall").isFunction = false →
        (traceCall L level).1 = .none)
    ∧ (traceCall L level).2 = L
    ∧ lua_gettop (traceCall L level).2 = lua_gettop L
    ∧ exception_kind .pcall = .pcall ∧ exception_kind .xpcall = .xpcall
    ∧ exception_kind .none = .lua_pcall
    ∧ (∀ env thread d s,
        (s.w.dbg.state_ = .running ∨ s.w.dbg.state_ = .stepping) →
        d.event = some .exception →
        hook env thread d s =
          (exception_nolock env thread d.L (exception_kind (classify (s.w.vm d.L) 0)) 0
            (s.modify_thread thread fun t => { t with busy := true })).andThen
            fun s1 => s1.modify_thread thread fun t => { t with busy := false }) := by
  have hfst := traceCall_fst L level
  refine ⟨hfst, ?_, ?_, ?_, ?_, traceCall_snd L level, ?_, rfl, rfl, rfl, ?_⟩
  · intro h
    rw [hfst]
    unfold classify
    rw [h]
  · intro ar h hp
    rw [hfst]
    unfold classify
    rw [h]
    simp only [hp, if_true]
  · intro ar h hp
    have hmatch := List.find?_some h
    simp only [decide_eq_true_eq] at hmatch
    refine ⟨?_, ?_⟩
    · rcases hmatch with h1 | h1
      · exact absurd h1 hp
      · exact h1
    · rw [hfst]
      unfold classify
      rw [h]
      simp only [hp, if_false]
  · intro hp hx
    rw [hfst]
    unfold classify
    have : first_handler L level = none := by
      unfold first_handler
      rw [List.find?_eq_none]
      intro ar _
      simp only [decide_eq_true_eq, not_or]
      refine ⟨?_, ?_⟩
      · intro h
        rw [h] at hp
        cases hp
      · intro h
        rw [h] at hx
        cases hx
    rw [this]
  · rw [traceCall_snd]
  · intro env thread d s hstate hev
    unfold hook
    rw [hook_body_exception env thread d
      (s.modify_thread thread fun t => { t with busy := true }) hstate hev, ← traceCall_fst]
    rfl

/-! ### The hook before the session runs -/

theorem hook_early_return (env : Env) (thread : Int) (d : debug) (s : State)
    (hnh : s.hung = false)
    (hstate : s.w.dbg.state_ = .terminated ∨ s.w.dbg.state_ = .birth
      ∨ s.w.dbg.state_ = .initialized) :
    hook env thread d s = s.modify_thread thread fun t => { t with busy := false } := by
  have h0 : ((s.modify_thread thread fun t => { t with busy := true }).w.dbg.is_state
        .terminated
      || (s.modify_thread thread fun t => { t with busy := true }).w.dbg.is_state .birth
      || (s.modify_thread thread fun t => { t with busy := true }).w.dbg.is_state .initialized)
      = true := by
    have hst : (s.modify_thread thread fun t => { t with busy := true }).w.dbg.state_
        = s.w.dbg.state_ := rfl
    simp only [Bool.or_eq_true, is_state_iff, hst]
    tauto
  have hbody : hook_body env thread d (s.modify_thread thread fun t => { t with busy := true })
      = s.modify_thread thread fun t => { t with busy := true } := by
    unfold hook_body
    rw [if_pos h0]
  unfold hook
  rw [hbody]
  unfold State.andThen
  have hh : (s.modify_thread thread fun t => { t with busy := true }).hung = false := hnh
  rw [hh]
  simp only [Bool.false_eq_true, if_false, State.modify_thread, World.modify_thread]
  rw [map_modify_modify]

theorem hook_callret_trace (env : Env) (thread : Int) (d : debug) (s : State)
    (hstate : s.w.dbg.state_ = .running ∨ s.w.dbg.state_ = .stepping)
    (hev : d.event = some .call ∨ d.event = some .tailcall ∨ d.event = some .ret) :
    (hook env thread d s).trace = s.trace ++ [.hook_callret thread] := by
  have h0 : ¬ ((s.modify_thread thread fun t => { t with busy := true }).w.dbg.is_state
        .terminated
      || (s.modify_thread thread fun t => { t with busy := true }).w.dbg.is_state .birth
      || (s.modify_thread thread fun t => { t with busy := true }).w.dbg.is_state .initialized)
      = true := by
    have hst : (s.modify_thread thread fun t => { t with busy := true }).w.dbg.state_
        = s.w.dbg.state_ := rfl
    simp only [Bool.or_eq_true, is_state_iff, hst]
    rcases hstate with h | h <;> rw [h] <;> simp
  unfold hook hook_body
  rw [if_neg h0, if_pos hev]
  unfold State.andThen
  split_ifs <;> rfl

/-- C12. While the session state is terminated, birth or initialized, `hook`
returns at once for every event and every thread: the call history is
untouched (no stop, no call to the breakpoint manager, the step check,
`hook_line` or `hook_callret`), nothing is sent, the session state and the
enabled-exception set stay, and the thread is as before with its busy flag
false.  In running and stepping, call, tailcall and return events go to
`hook_callret` only and never enter `run_stopped`. -/
theorem hook_idle_before_running (env : Env) (thread : Int) (d : debug) (s : State)
    (hnh : s.hung = false) :
    ((s.w.dbg.state_ = .terminated ∨ s.w.dbg.state_ = .birth
        ∨ s.w.dbg.state_ = .initialized) →
      hook env thread d s = s.modify_thread thread (fun t => { t with busy := false })
      ∧ (hook env thread d s).trace = s.trace
      ∧ stops (hook env thread d s).trace = stops s.trace
      ∧ (hook env thread d s).w.sent = s.w.sent
      ∧ (hook env thread d s).w.dbg.state_ = s.w.dbg.state_
      ∧ (hook env thread d s).w.dbg.exception_ = s.w.dbg.exception_
      ∧ find_luathread_id (hook env thread d s).w thread
          = (find_luathread_id s.w thread).map (fun t => { t with busy := false })
      ∧ (∀ t, find_luathread_id s.w thread = some t →
          ∃ t1, find_luathread_id (hook env thread d s).w thread = some t1
            ∧ t1.busy = false
            ∧ t1.cur_function = t.cur_function
            ∧ t1.has_breakpoint = t.has_breakpoint
            ∧ t1.step_mode = t.step_mode
            ∧ t1.step_depth = t.step_depth
            ∧ t1.step_line = t.step_line
            ∧ t1.enabled = t.enabled))
    ∧ ((s.w.dbg.state_ = .running ∨ s.w.dbg.state_ = .stepping) →
      (d.event = some .call ∨ d.event = some .tailcall ∨ d.event = some .ret) →
      (hook env thread d s).trace = s.trace ++ [.hook_callret thread]
      ∧ stops (hook env thread d s).trace = stops s.trace) := by
  refine ⟨?_, ?_⟩
  · intro hstate
    have h := hook_early_return env thread d s hnh hstate
    have hfind : find_luathread_id (hook env thread d s).w thread
        = (find_luathread_id s.w thread).map (fun t => { t with busy := false }) := by
      rw [h]
      simp only [find_luathread_id, State.modify_thread, World.modify_thread]
      rw [map_find_modify]
    refine ⟨h, by rw [h]; rfl, by rw [h]; rfl, by rw [h]; rfl, by rw [h]; rfl, by rw [h]; rfl,
      hfind, ?_⟩
    intro t ht
    rw [hfind, ht]
    exact ⟨_, rfl, rfl, rfl, rfl, rfl, rfl, rfl, rfl⟩
  · intro hstate hev
    have h := hook_callret_trace env thread d s hstate hev
    refine ⟨h, ?_⟩
    rw [h]
    exact stops_snoc_other _ _ rfl

/-- Witness for C12: a line event for thread 1 of the sample session in state
birth. -/
theorem hook_idle_before_running_witness :
    (sample_state .birth [.lua_pcall] sample_lua).hung = false
    ∧ (hook (Env.sample (some 0) true true true) 1 sample_line
        (sample_state .birth [.lua_pcall] sample_lua)).trace
        = (sample_state .birth [.lua_pcall] sample_lua).trace :=
  ⟨rfl,
   ((hook_idle_before_running (Env.sample (some 0) true true true) 1 sample_line
      (sample_state .birth [.lua_pcall] sample_lua) rfl).1 (Or.inr (Or.inl rfl))).2.1⟩

/-! ### The stopped loop -/

/-- The loop on a non-empty inbox is one iteration, after which it is left if
the input ends it and goes on otherwise. -/
theorem stopped_loop_cons (env : Env) (d : debug) (input : Option rprotocol)
    (rest : List (Option rprotocol)) (s : State) (hin : s.inbox = input :: rest) :
    stopped_loop env d (input :: rest) s =
      if ends_loop env d input (env.network_update s.w) = true then loop_pass env d input s
      else stopped_loop env d rest (loop_pass env d input s) := by
  have htail : s.inbox.tail = rest := by rw [hin]; rfl
  cases input with
  | none =>
    simp only [stopped_loop, ends_loop, loop_pass, htail, Bool.false_eq_true, if_false]
  | some req =>
    by_cases hty : req.type = "request"
    · by_cases hb : (env.network_update s.w).dbg.state_ = .birth
      · have hb1 : (env.network_update s.w).dbg.is_state .birth = true :=
          (is_state_iff _ _).mpr hb
        by_cases hc : req.command = "initialize"
        · simp [stopped_loop, ends_loop, loop_pass, htail, hty, hb, hb1, hc]
        · simp [stopped_loop, ends_loop, loop_pass, htail, hty, hb, hb1, hc]
      · have hb1 : ¬ (env.network_update s.w).dbg.is_state .birth = true :=
          fun h => hb ((is_state_iff _ _).mp h)
        cases hm : dispatch_find main_dispatch_ req.command with
        | some h =>
          simp only [stopped_loop, ends_loop, loop_pass, htail, hty, hb, hb1, hm, update_main,
            ne_eq, not_true_eq_false, not_false_eq_true, if_false, and_self, if_true,
            Bool.false_eq_true]
        | none =>
          cases hh : dispatch_find hook_dispatch_ req.command with
          | some h =>
            simp only [stopped_loop, ends_loop, loop_pass, htail, hty, hb, hb1, hm, hh,
              update_main, update_hook, ne_eq, not_true_eq_false, not_false_eq_true, if_false,
              and_self, if_true, Bool.false_eq_true]
          | none =>
            simp only [stopped_loop, ends_loop, loop_pass, htail, hty, hb, hb1, hm, hh,
              update_main, update_hook, ne_eq, not_true_eq_false, not_false_eq_true, if_false,
              and_self, if_true, Bool.false_eq_true]
    · simp [stopped_loop, ends_loop, loop_pass, htail, hty]

theorem loop_pass_inbox (env : Env) (d : debug) (input : Option rprotocol) (s : State) :
    (loop_pass env d input s).inbox = s.inbox.tail := by
  unfold loop_pass
  cases input with
  | none => rfl
  | some req =>
    simp only
    split_ifs
    · rfl
    · rfl
    · rfl
    · split <;> rfl

theorem loop_pass_hung (env : Env) (d : debug) (input : Option rprotocol) (s : State) :
    (loop_pass env d input s).hung = s.hung := by
  unfold loop_pass
  cases input with
  | none => rfl
  | some req =>
    simp only
    split_ifs
    · rfl
    · rfl
    · rfl
    · split <;> rfl

/-- One iteration adds at most one entry to the history, never an entry into
`run_stopped` nor a call of `reset_session`. -/
theorem loop_pass_trace (env : Env) (d : debug) (input : Option rprotocol) (s : State) :
    ∃ tr, (loop_pass env d input s).trace = s.trace ++ tr ∧ tr.length ≤ 1
      ∧ ∀ c ∈ tr, c.is_stop = false ∧ c.is_reset = false := by
  unfold loop_pass
  cases input with
  | none => exact ⟨[.sleep], rfl, le_refl _, by simp [Call.is_stop, Call.is_reset]⟩
  | some req =>
    simp only
    split_ifs
    · exact ⟨[], by simp, by simp, by simp⟩
    · exact ⟨[.request_init req], rfl, le_refl _, by simp [Call.is_stop, Call.is_reset]⟩
    · exact ⟨[.response_error req _], rfl, le_refl _, by simp [Call.is_stop, Call.is_reset]⟩
    · split
      · exact ⟨[.request_main _ req], rfl, le_refl _, by simp [Call.is_stop, Call.is_reset]⟩
      · exact ⟨[.request_hook _ req], rfl, le_refl _, by simp [Call.is_stop, Call.is_reset]⟩
      · exact ⟨[.response_error req _], rfl, le_refl _, by simp [Call.is_stop, Call.is_reset]⟩

theorem passes_inbox (env : Env) (d : debug) (inbox : List (Option rprotocol)) (k : Nat)
    (s : State) (hin : s.inbox = inbox) :
    (passes env d (inbox.take k) s).inbox = inbox.drop k := by
  induction inbox generalizing s k with
  | nil => simp [passes, hin]
  | cons x rest ih =>
    cases k with
    | zero => simp [passes, hin]
    | succ k =>
      simp only [List.take_succ_cons, passes, List.drop_succ_cons]
      apply ih
      rw [loop_pass_inbox, hin]
      rfl

theorem passes_hung (env : Env) (d : debug) (inputs : List (Option rprotocol)) (s : State) :
    (passes env d inputs s).hung = s.hung := by
  induction inputs generalizing s with
  | nil => rfl
  | cons x rest ih =>
    simp only [passes]
    rw [ih, loop_pass_hung]

theorem passes_trace (env : Env) (d : debug) (inputs : List (Option rprotocol)) (s : State) :
    ∃ tr, (passes env d inputs s).trace = s.trace ++ tr ∧ tr.length ≤ inputs.length
      ∧ ∀ c ∈ tr, c.is_stop = false ∧ c.is_reset = false := by
  induction inputs generalizing s with
  | nil => exact ⟨[], by simp [passes], by simp, by simp⟩
  | cons x rest ih =>
    obtain ⟨tr1, h1, hl1, hc1⟩ := loop_pass_trace env d x s
    obtain ⟨tr2, h2, hl2, hc2⟩ := ih (loop_pass env d x s)
    refine ⟨tr1 ++ tr2, ?_, ?_, ?_⟩
    · simp only [passes]
      rw [h2, h1, List.append_assoc]
    · simp only [List.length_append, List.length_cons]
      omega
    · intro c hc
      rcases List.mem_append.mp hc with h | h
      · exact hc1 c h
      · exact hc2 c h

/-- The loop is left right after the first input that ends it, and never if
no input does. -/
theorem stopped_loop_exit (env : Env) (d : debug) (inbox : List (Option rprotocol))
    (s : State) (hin : s.inbox = inbox) :
    (∀ n, exit_index env d inbox s = some n →
      stopped_loop env d inbox s = passes env d (inbox.take (n + 1)) s)
    ∧ (exit_index env d inbox s = none →
      stopped_loop env d inbox s = { passes env d inbox s with hung := true }) := by
  induction inbox generalizing s with
  | nil =>
    refine ⟨?_, ?_⟩
    · intro n h
      simp [exit_index] at h
    · intro _
      rfl
  | cons x rest ih =>
    have hrest : (loop_pass env d x s).inbox = rest := by
      rw [loop_pass_inbox, hin]
      rfl
    obtain ⟨ih1, ih2⟩ := ih (loop_pass env d x s) hrest
    rw [stopped_loop_cons env d x rest s hin]
    by_cases he : ends_loop env d x (env.network_update s.w) = true
    · refine ⟨?_, ?_⟩
      · intro n h
        simp only [exit_index, he, if_true, Option.some.injEq] at h
        subst h
        simp [he, passes]
      · intro h
        simp [exit_index, he] at h
    · refine ⟨?_, ?_⟩
      · intro n h
        simp only [exit_index, he, Bool.false_eq_true, if_false, Option.map_eq_some'] at h
        obtain ⟨m, hm, rfl⟩ := h
        rw [if_neg he, ih1 m hm]
        rfl
      · intro h
        simp only [exit_index, he, Bool.false_eq_true, if_false, Option.map_eq_none'] at h
        rw [if_neg he, ih2 h]
        rfl

/-- The input found by `exit_index` ends the loop and none before it does. -/
theorem exit_index_first (env : Env) (d : debug) (inbox : List (Option rprotocol))
    (s : State) :
    (∀ n, exit_index env d inbox s = some n →
      (∃ x, inbox.get? n = some x
        ∧ ends_loop env d x (env.network_update (passes env d (inbox.take n) s).w) = true)
      ∧ ∀ k x, k < n → inbox.get? k = some x →
        ends_loop env d x (env.network_update (passes env d (inbox.take k) s).w) = false)
    ∧ (exit_index env d inbox s = none →
      ∀ k x, inbox.get? k = some x →
        ends_loop env d x (env.network_update (passes env d (inbox.take k) s).w) = false) := by
  induction inbox generalizing s with
  | nil =>
    refine ⟨?_, ?_⟩
    · intro n h
      simp [exit_index] at h
    · intro _ k x hx
      simp at hx
  | cons y rest ih =>
    obtain ⟨ih1, ih2⟩ := ih (loop_pass env d y s)
    by_cases he : ends_loop env d y (env.network_update s.w) = true
    · refine ⟨?_, ?_⟩
      · intro n h
        simp only [exit_index, he, if_true, Option.some.injEq] at h
        subst h
        refine ⟨⟨y, rfl, by simpa [passes] using he⟩, ?_⟩
        intro k x hk
        omega
      · intro h
        simp [exit_index, he] at h
    · have he0 : ends_loop env d y (env.network_update s.w) = false := by
        cases h : ends_loop env d y (env.network_update s.w)
        · rfl
        · exact absurd h he
      refine ⟨?_, ?_⟩
      · intro n h
        simp only [exit_index, he, Bool.false_eq_true, if_false, Option.map_eq_some'] at h
        obtain ⟨m, hm, rfl⟩ := h
        obtain ⟨⟨x, hx, hex⟩, hbefore⟩ := ih1 m hm
        refine ⟨⟨x, by simpa using hx, by simpa [passes] using hex⟩, ?_⟩
        intro k x1 hk hx1
        cases k with
        | zero =>
          simp only [List.get?_cons_zero, Option.some.injEq] at hx1
          subst hx1
          simpa [passes] using he0
        | succ j =>
          have := hbefore j x1 (by omega) (by simpa using hx1)
          simpa [passes] using this
      · intro h
        simp only [exit_index, he, Bool.false_eq_true, if_false, Option.map_eq_none'] at h
        intro k x1 hx1
        cases k with
        | zero =>
          simp only [List.get?_cons_zero, Option.some.injEq] at hx1
          subst hx1
          simpa [passes] using he0
        | succ j =>
          have := ih2 h j x1 (by simpa using hx1)
          simpa [passes] using this

theorem resets_quiet (tr : List Call) (h : ∀ c ∈ tr, c.is_stop = false ∧ c.is_reset = false) :
    resets tr = [] := by
  unfold resets
  rw [List.filter_eq_nil_iff]
  intro c hc
  simp [(h c hc).2]

theorem ends_loop_true_iff (env : Env) (d : debug) (req : rprotocol) (w : World) :
    ends_loop env d (some req) w = true ↔
      req.type = "request" ∧ w.dbg.state_ ≠ .birth
      ∧ ((∃ h, dispatch_find main_dispatch_ req.command = some h
            ∧ (env.request_main h req w).1 = true)
        ∨ (dispatch_find main_dispatch_ req.command = none
            ∧ ∃ h, dispatch_find hook_dispatch_ req.command = some h
              ∧ (env.request_hook h req d w).1 = true)) := by
  unfold ends_loop
  by_cases hc : req.type = "request" ∧ w.dbg.state_ ≠ .birth
  · simp only [hc, and_self, if_true, ne_eq, not_false_eq_true, true_and]
    cases hm : dispatch_find main_dispatch_ req.command with
    | some h => simp
    | none =>
      cases hh : dispatch_find hook_dispatch_ req.command with
      | some h => simp
      | none => simp
  · simp only [hc, if_false, Bool.false_eq_true, false_iff]
    intro h
    exact hc ⟨h.1, h.2.1⟩

/-- C13. A call of `run_stopped` on a finite stream of inputs: the stopped
event is emitted once, on entry.  Every iteration takes one input off the
stream and makes at most one call.  The loop is left right after the first
input that ends it, that is a request read while the state is not birth
whose main-table or hook-table handler returns `quit = true`; an absent
input, a message that is no request, a command in neither table, a handler
returning false and any request read in state birth do not end it, and when
no input ends it the loop is never left.  `reset_session` is called once,
as the last thing after the loop is left, and not at all before. -/
theorem stopped_loop_exit_rule (env : Env) (thread : Int) (d : debug) (reason : String)
    (description : Option String) (s : State) (hnh : s.hung = false) :
    let s0 : State := { s with
      w := event_stopped thread reason description s.w
      trace := s.trace ++ [.run_stopped thread reason description] }
    let r := run_stopped env thread d reason description s
    s0.w.sent = s.w.sent ++
        [.stopped s.w.dbg.seq reason (((find_luathread_id s.w thread).map (·.id)).getD thread)
          description]
    ∧ stops r.trace = stops s.trace ++ [.run_stopped thread reason description]
    ∧ (∀ n, exit_index env d s.inbox s0 = some n →
        r = ((passes env d (s.inbox.take (n + 1)) s0).modify_thread thread
              (env.reset_session d.L (passes env d (s.inbox.take (n + 1)) s0).w)).log
              (.reset_session thread)
        ∧ r.hung = false
        ∧ r.inbox = s.inbox.drop (n + 1)
        ∧ (∃ tr, r.trace = s.trace ++ [.run_stopped thread reason description] ++ tr
              ++ [.reset_session thread]
            ∧ tr.length ≤ n + 1
            ∧ ∀ c ∈ tr, c.is_stop = false ∧ c.is_reset = false)
        ∧ resets r.trace = resets s.trace ++ [.reset_session thread]
        ∧ (∃ x, s.inbox.get? n = some x
            ∧ ends_loop env d x
                (env.network_update (passes env d (s.inbox.take n) s0).w) = true)
        ∧ (∀ k x, k < n → s.inbox.get? k = some x →
            ends_loop env d x
              (env.network_update (passes env d (s.inbox.take k) s0).w) = false))
    ∧ (exit_index env d s.inbox s0 = none →
        r = { passes env d s.inbox s0 with hung := true }
        ∧ r.hung = true
        ∧ (∃ tr, r.trace = s.trace ++ [.run_stopped thread reason description] ++ tr
            ∧ ∀ c ∈ tr, c.is_stop = false ∧ c.is_reset = false)
        ∧ resets r.trace = resets s.trace
        ∧ (∀ k x, s.inbox.get? k = some x →
            ends_loop env d x
              (env.network_update (passes env d (s.inbox.take k) s0).w) = false))
    ∧ (∀ w, ends_loop env d none w = false)
    ∧ (∀ req w, req.type ≠ "request" → ends_loop env d (some req) w = false)
    ∧ (∀ req w, w.dbg.state_ = .birth → ends_loop env d (some req) w = false)
    ∧ (∀ req w, dispatch_find main_dispatch_ req.command = none →
        dispatch_find hook_dispatch_ req.command = none →
        ends_loop env d (some req) w = false)
    ∧ (∀ req w h, dispatch_find main_dispatch_ req.command = some h →
        (env.request_main h req w).1 = false → ends_loop env d (some req) w = false)
    ∧ (∀ req w h, dispatch_find main_dispatch_ req.command = none →
        dispatch_find hook_dispatch_ req.command = some h →
        (env.request_hook h req d w).1 = false → ends_loop env d (some req) w = false)
    ∧ (∀ req w, ends_loop env d (some req) w = true ↔
        req.type = "request" ∧ w.dbg.state_ ≠ .birth
        ∧ ((∃ h, dispatch_find main_dispatch_ req.command = some h
              ∧ (env.request_main h req w).1 = true)
          ∨ (dispatch_find main_dispatch_ req.command = none
              ∧ ∃ h, dispatch_find hook_dispatch_ req.command = some h
                ∧ (env.request_hook h req d w).1 = true)))
    ∧ (∀ x s1, (loop_pass env d x s1).inbox = s1.inbox.tail
        ∧ ∃ tr, (loop_pass env d x s1).trace = s1.trace ++ tr ∧ tr.length ≤ 1) := by
  intro s0 r
  have hs0 : s0.inbox = s.inbox := rfl
  have hh0 : s0.hung = false := hnh
  have hr : r = (stopped_loop env d s.inbox s0).andThen fun s1 =>
      (s1.modify_thread thread (env.reset_session d.L s1.w)).log (.reset_session thread) := rfl
  obtain ⟨hex1, hex2⟩ := stopped_loop_exit env d s.inbox s0 hs0
  obtain ⟨hf1, hf2⟩ := exit_index_first env d s.inbox s0
  refine ⟨rfl, run_stopped_stops env thread d reason description s, ?_, ?_, ?_, ?_, ?_, ?_, ?_,
    ?_, ends_loop_true_iff env d, ?_⟩
  · intro n hn
    have hloop := hex1 n hn
    have hph : (passes env d (s.inbox.take (n + 1)) s0).hung = false := by
      rw [passes_hung]
      exact hh0
    have hreq : r = ((passes env d (s.inbox.take (n + 1)) s0).modify_thread thread
        (env.reset_session d.L (passes env d (s.inbox.take (n + 1)) s0).w)).log
        (.reset_session thread) := by
      rw [hr, hloop]
      unfold State.andThen
      rw [hph]
      rfl
    obtain ⟨tr, htr, hlen, hq⟩ := passes_trace env d (s.inbox.take (n + 1)) s0
    have htrace : r.trace = s.trace ++ [.run_stopped thread reason description] ++ tr
        ++ [.reset_session thread] := by
      rw [hreq]
      show (passes env d (s.inbox.take (n + 1)) s0).trace ++ [_] = _
      rw [htr]
    refine ⟨hreq, ?_, ?_, ⟨tr, htrace, ?_, hq⟩, ?_, (hf1 n hn).1, (hf1 n hn).2⟩
    · rw [hreq]
      exact hph
    · rw [hreq]
      exact passes_inbox env d s.inbox (n + 1) s0 hs0
    · have := List.length_take_le (n + 1) s.inbox
      omega
    · rw [htrace]
      simp only [resets, List.filter_append]
      have h1 := resets_quiet tr hq
      unfold resets at h1
      rw [h1]
      simp [Call.is_reset]
  · intro hn
    have hloop := hex2 hn
    have hreq : r = { passes env d s.inbox s0 with hung := true } := by
      rw [hr, hloop]
      rfl
    obtain ⟨tr, htr, _, hq⟩ := passes_trace env d s.inbox s0
    have htrace : r.trace = s.trace ++ [.run_stopped thread reason description] ++ tr := by
      rw [hreq]
      exact htr
    refine ⟨hreq, by rw [hreq], ⟨tr, htrace, hq⟩, ?_, hf2 hn⟩
    rw [htrace]
    simp only [resets, List.filter_append]
    have h1 := resets_quiet tr hq
    unfold resets at h1
    rw [h1]
    simp [Call.is_reset]
  · intro w
    rfl
  · intro req w h
    simp [ends_loop, h]
  · intro req w h
    simp [ends_loop, h]
  · intro req w hm hh
    simp [ends_loop, hm, hh]
  · intro req w h hm hq
    simp [ends_loop, hm, hq]
  · intro req w h hm hh hq
    simp [ends_loop, hm, hh, hq]
  · intro x s1
    obtain ⟨tr, htr, hlen, _⟩ := loop_pass_trace env d x s1
    exact ⟨loop_pass_inbox env d x s1, tr, htr, hlen⟩

/-- Witness for C13: the sample session stopped with a `continue` request
waiting; the loop is left on that first input and the rest of the stream is
untouched. -/
theorem stopped_loop_exit_rule_witness :
    (sample_state .running [] sample_lua).hung = false
    ∧ stops (run_stopped (Env.sample none false false false) 1 sample_line "breakpoint" none
        (sample_state .running [] sample_lua)).trace
      = stops (sample_state .running [] sample_lua).trace
        ++ [.run_stopped 1 "breakpoint" none]
    ∧ (run_stopped (Env.sample none false false false) 1 sample_line "breakpoint" none
        (sample_state .running [] sample_lua)).hung = false :=
  ⟨rfl,
   (stopped_loop_exit_rule (Env.sample none false false false) 1 sample_line "breakpoint" none
      (sample_state .running [] sample_lua) rfl).2.1,
   ((stopped_loop_exit_rule (Env.sample none false false false) 1 sample_line "breakpoint" none
      (sample_state .running [] sample_lua) rfl).2.2.1 0 (by decide)).2.1⟩

end vscode
